import Mathlib

/-!
Verification development for the yig metadata engine.

Shallow embedding of `meta/client/tidbclient/object.go` (object, version and part
persistence) and `storage/bucket.go` (bucket administration and listing), followed
by theorems about the embedded code.

Conventions of the embedding:
* Go `int` / `int64` values are `Int`, Go `uint64` values are `Nat`; every conversion
  and every unsigned subtraction is written with its explicit `% 2^64` wrap-around.
* Go `error` results are `Option Error` (`none` is `nil`).
* A run-time panic (slice index out of range) is the `none` of an `Option` result.
* Calls into collaborators whose code is outside the two source files (the SQL
  backend, the cache, the identity provider, the token cipher) go through a record of
  functions over an abstract backend state, and every call is logged in a trace.
-/

namespace Yig

/-! ## Machine integers -/

/-- Go constant `math.MaxUint64`. -/
def MaxUint64 : Nat := 2 ^ 64 - 1

/-- Range of a Go `int64`. -/
def inInt64 (n : Int) : Prop := -(2 ^ 63 : Int) ≤ n ∧ n < (2 ^ 63 : Int)

instance (n : Int) : Decidable (inInt64 n) := by
  unfold inInt64; infer_instance

/-- Go conversion `uint64(n)` of an `int64`: two's complement reinterpretation. -/
def toUint64 (n : Int) : Nat := (n % (2 ^ 64 : Int)).toNat

/-- Go conversion `int64(r)` of a `uint64`: two's complement reinterpretation. -/
def toInt64 (r : Nat) : Int :=
  if r % 2 ^ 64 < 2 ^ 63 then ((r % 2 ^ 64 : Nat) : Int) else ((r % 2 ^ 64 : Nat) : Int) - (2 ^ 64 : Int)

/-- Go subtraction `a - b` on `uint64`, wrapping modulo `2^64`. -/
def subU64 (a b : Nat) : Nat := (a % 2 ^ 64 + 2 ^ 64 - b % 2 ^ 64) % 2 ^ 64

/-! ## Stored sort key of a version (object.go, PutObject / DeleteObject / GetObject) -/

/-- Stored sort key `math.MaxUint64 - uint64(object.LastModifiedTime.UnixNano())`
(object.go lines 165, 186, 206, 232, 271); `n` is the value of `UnixNano()`. -/
def versionKey (n : Int) : Nat := subU64 MaxUint64 (toUint64 n)

/-- Line 60 of object.go: `rversion := math.MaxUint64 - iversion`. -/
def rversion (iversion : Nat) : Nat := subU64 MaxUint64 iversion

/-- Line 61 of object.go: `s := int64(rversion) / 1e9` (Go division truncates toward zero). -/
def decodeSeconds (iversion : Nat) : Int := Int.tdiv (toInt64 (rversion iversion)) 1000000000

/-- Line 62 of object.go: `ns := int64(rversion) % 1e9` (Go remainder takes the sign of
the dividend). -/
def decodeNanos (iversion : Nat) : Int := Int.tmod (toInt64 (rversion iversion)) 1000000000

/-- A Go `time.Time`, reduced to the pair (seconds since the epoch, nanoseconds within
the second) that `time.Unix` builds. -/
structure Time where
  sec : Int
  nsec : Int
  deriving DecidableEq, Repr

/-- Go standard library `time.Unix(sec, nsec)`: a `nsec` outside `[0, 1e9)` is folded
into the seconds. -/
def timeUnix (sec nsec : Int) : Time :=
  if nsec < 0 ∨ nsec ≥ 1000000000 then
    let n := Int.tdiv nsec 1000000000
    let sec1 := sec + n
    let nsec1 := nsec - n * 1000000000
    if nsec1 < 0 then ⟨sec1 - 1, nsec1 + 1000000000⟩ else ⟨sec1, nsec1⟩
  else ⟨sec, nsec⟩

/-- Go standard library `Time.UnixNano()`, reduced modulo `2^64` into the `int64` range. -/
def Time.UnixNano (t : Time) : Int := toInt64 (toUint64 (t.sec * 1000000000 + t.nsec))

/-- Line 63 of object.go: `object.LastModifiedTime = time.Unix(s, ns)`. -/
def decodeTime (iversion : Nat) : Time := timeUnix (decodeSeconds iversion) (decodeNanos iversion)

/-! ## Errors -/

/-- Go `error` values met in the two source files: the package-level sentinels of the
`error` package, `sql.ErrNoRows`, and any other error a collaborator may return. -/
inductive Error where
  | ErrNoSuchKey
  | ErrNoSuchBucket
  | ErrBucketAlreadyExists
  | ErrTooManyBuckets
  | ErrBucketAccessForbidden
  | ErrBucketNotEmpty
  | ErrInvalidContinuationToken
  | ErrNoSuchBucketLc
  | ErrNoSuchBucketCors
  | ErrMalformedPolicy
  | SqlErrNoRows
  | Other (msg : String)
  deriving DecidableEq, Repr

open Error

/-! ## Object and part records (meta/types, as used by object.go) -/

/-- Canned ACL holder `datatype.Acl`. -/
structure Acl where
  CannedAcl : String
  deriving DecidableEq, Repr

/-- One multipart part, with the seven fields `getParts` scans. -/
structure Part where
  PartNumber : Int
  Size : Int
  ObjectId : String
  Offset : Int
  Etag : String
  LastModified : String
  InitializationVector : String
  deriving DecidableEq, Repr

/-- Go `map[int]*Part`: an association list with pairwise distinct keys; the order of
the list is the order in which a `range` loop visits the entries. -/
abbrev PartMap := List (Int × Part)

/-- Go map assignment `parts[k] = v`. -/
def mapSet : PartMap → Int → Part → PartMap
  | [], k, v => [(k, v)]
  | (k1, v1) :: rest, k, v => if k1 = k then (k, v) :: rest else (k1, v1) :: mapSet rest k v

/-- Index holder `SimpleIndex`. -/
structure SimpleIndex where
  Index : List Int
  deriving DecidableEq, Repr

/-- Record `Object` of meta/types, with the fields `GetObject` fills in (`ObjectType` is the field `Type`). `Parts` is
`none` for a nil map, `PartsIndex` is `none` for a nil pointer. -/
structure Object where
  Name : String
  BucketName : String
  Location : String
  Pool : String
  OwnerId : String
  Size : Int
  ObjectId : String
  LastModifiedTime : Time
  Etag : String
  ContentType : String
  CustomAttributes : List (String × String)
  Parts : Option PartMap
  PartsIndex : Option SimpleIndex
  ACL : Acl
  NullVersion : Bool
  DeleteMarker : Bool
  VersionId : String
  SseType : String
  EncryptionKey : String
  InitializationVector : String
  ObjectType : Int
  StorageClass : Int
  deriving DecidableEq, Repr

/-- Go zero value `time.Time{}`: midnight of January 1 of year 1, which lies
62135596800 seconds before the Unix epoch. -/
def Time.zero : Time := ⟨-62135596800, 0⟩

/-- Go zero value `&Object{}`. -/
def Object.zero : Object :=
  { Name := "", BucketName := "", Location := "", Pool := "", OwnerId := "", Size := 0,
    ObjectId := "", LastModifiedTime := Time.zero, Etag := "", ContentType := "",
    CustomAttributes := [], Parts := none, PartsIndex := none, ACL := ⟨""⟩,
    NullVersion := false, DeleteMarker := false, VersionId := "", SseType := "",
    EncryptionKey := "", InitializationVector := "", ObjectType := 0, StorageClass := 0 }

/-- One row of table `objects`, with the twenty columns the select of `GetObject` names. -/
structure ObjectRow where
  bucketname : String
  name : String
  version : Nat
  location : String
  pool : String
  ownerid : String
  size : Int
  objectid : String
  lastmodifiedtime : String
  etag : String
  contenttype : String
  customattributes : String
  acl : String
  nullversion : Bool
  deletemarker : Bool
  ssetype : String
  encryptionkey : String
  initializationvector : String
  type : Int
  storageclass : Int
  deriving DecidableEq, Repr

/-- One row of table `objectpart` as `rows.Scan` delivers it: `scanned` is what the scan
leaves in the fresh `Part`, `scanErr` the error the scan returns. -/
structure PartRow where
  bucketname : String
  objectname : String
  version : Nat
  scanned : Part
  scanErr : Option Error
  deriving DecidableEq, Repr

/-- The SQL handle `t.Client` as the read path sees it: the two tables, and the failures
the driver may report for the single-row query and for the part query. -/
structure SqlClient where
  objects : List ObjectRow
  objectpart : List PartRow
  queryRowFailure : Option Error
  queryFailure : Option Error

/-- Functions of other packages used by `GetObject`: `json.Unmarshal` on the two
serialized columns and `xxtea.Encrypt(data, XXTEA_KEY)` (bytes as a list of numbers). -/
structure Deps where
  unmarshalAcl : String → Except Error Acl
  unmarshalAttrs : String → Except Error (List (String × String))
  xxteaEncrypt : String → List Nat

/-- Lower-case hexadecimal digit of `encoding/hex`. -/
def hexDigit (d : Nat) : Char := "0123456789abcdef".data.getD d '0'

/-- Go standard library `hex.EncodeToString`. -/
def hexEncodeToString (bs : List Nat) : String :=
  String.mk (bs.flatMap fun b => [hexDigit (b % 256 / 16), hexDigit (b % 16)])

/-- First row of `order by bucketname,name,version limit 1` among rows that already
agree on bucket name and object name: the row with the smallest version. -/
def firstByVersion : List ObjectRow → Option ObjectRow
  | [] => none
  | r :: rest =>
    match firstByVersion rest with
    | none => some r
    | some m => if m.version < r.version then some m else some r

/-- The `QueryRow(...).Scan(...)` of `GetObject` (lines 24-53): rows are selected by
`bucketname=? and name=?`; with an empty `version` the first row in ascending version
order is taken, otherwise the row whose version equals the given decimal string. -/
def QueryRow (cli : SqlClient) (bucketName objectName version : String) : Except Error ObjectRow :=
  match cli.queryRowFailure with
  | some e => .error e
  | none =>
    let rows := cli.objects.filter fun r => r.bucketname = bucketName ∧ r.name = objectName
    if version = "" then
      match firstByVersion rows with
      | none => .error SqlErrNoRows
      | some r => .ok r
    else
      match rows.find? fun r => toString r.version = version with
      | none => .error SqlErrNoRows
      | some r => .ok r

/-- Function `getParts` (object.go lines 287-309). The error variable is overwritten by
every `rows.Scan`, and every scanned part is stored under its part number. -/
def getParts (bucketName objectName : String) (version : Nat) (cli : SqlClient) :
    PartMap × Option Error :=
  match cli.queryFailure with
  | some e => ([], some e)
  | none =>
    (cli.objectpart.filter fun r =>
        r.bucketname = bucketName ∧ r.objectname = objectName ∧ r.version = version).foldl
      (fun acc r => (mapSet acc.1 r.scanned.PartNumber r.scanned, r.scanErr)) ([], none)

/-- Slice store `s[i] = x`; `none` is the index-out-of-range panic. -/
def sliceStore (s : List Int) (i : Int) (x : Int) : Option (List Int) :=
  if 0 ≤ i ∧ i < s.length then some (s.set i.toNat x) else none

/-- Loop of lines 78-80: `for k, v := range object.Parts { sortedPartNum[k-1] = v.Offset }`. -/
def buildIndexLoop : List (Int × Part) → List Int → Option (List Int)
  | [], idx => some idx
  | (k, v) :: rest, idx =>
    match sliceStore idx (k - 1) v.Offset with
    | none => none
    | some idx1 => buildIndexLoop rest idx1

/-- Lines 76-82 of object.go: the part index of a part map; the outer `none` is a
panic, the inner `none` a nil `PartsIndex`. -/
def buildPartsIndex (parts : PartMap) : Option (Option SimpleIndex) :=
  if parts.length ≠ 0 then
    match buildIndexLoop parts (List.replicate parts.length 0) with
    | none => none
    | some idx => some (some ⟨idx⟩)
  else some none

/-- Lines 83-86 of object.go: the version identifier. `reversedTime` is declared and
never assigned, so it holds the zero value. -/
def versionId (deps : Deps) : String :=
  let reversedTime : Nat := 0
  let timestamp := subU64 MaxUint64 reversedTime
  let timeData := toString timestamp
  hexEncodeToString (deps.xxteaEncrypt timeData)

/-- Method `TidbClient.GetObject` (object.go lines 17-88). The result is the returned
pair `(object, err)`; `none` is a panic. -/
def GetObject (deps : Deps) (cli : SqlClient) (bucketName objectName version : String) :
    Option (Object × Option Error) :=
  match QueryRow cli bucketName objectName version with
  | .error e =>
    if e = SqlErrNoRows then some (Object.zero, some ErrNoSuchKey) else some (Object.zero, some e)
  | .ok row =>
    let iversion := row.version
    let object : Object :=
      { Object.zero with
        Location := row.location, Pool := row.pool, OwnerId := row.ownerid, Size := row.size,
        ObjectId := row.objectid, Etag := row.etag, ContentType := row.contenttype,
        NullVersion := row.nullversion, DeleteMarker := row.deletemarker,
        SseType := row.ssetype, EncryptionKey := row.encryptionkey,
        InitializationVector := row.initializationvector, ObjectType := row.type,
        StorageClass := row.storageclass,
        LastModifiedTime := decodeTime iversion, Name := objectName, BucketName := bucketName }
    match deps.unmarshalAcl row.acl with
    | .error e => some (object, some e)
    | .ok acl =>
      let object := { object with ACL := acl }
      match deps.unmarshalAttrs row.customattributes with
      | .error e => some (object, some e)
      | .ok attrs =>
        let object := { object with CustomAttributes := attrs }
        let (parts, err) := getParts object.BucketName object.Name iversion cli
        let object := { object with Parts := some parts }
        match buildPartsIndex parts with
        | none => none
        | some index =>
          some ({ object with PartsIndex := index, VersionId := versionId deps }, err)

/-! ## Transactional writes of object.go -/

/-- SQL statements the write path builds: `object.GetCreateSql()`,
`p.GetCreateSql(bucket, name, version)` and the two deletes of `DeleteObject`. -/
inductive Stmt where
  | InsertObject (o : Object)
  | InsertPart (p : Part) (bucketName objectName version : String)
  | DeleteObjectRow (name bucketName version : String)
  | DeleteObjectParts (objectName bucketName version : String)
  deriving DecidableEq, Repr

/-- What the write path asks of the SQL driver, in order. -/
inductive SqlEvent where
  | Begin
  | Exec (s : Stmt)
  | Commit
  | Rollback
  deriving DecidableEq, Repr

/-- The SQL driver behind `t.Client` and behind a transaction handle, over a backend
state `σ`: every call may fail and may change the state. -/
structure SqlBackend (σ : Type) where
  Begin : σ → Option Error × σ
  Exec : Stmt → σ → Option Error × σ
  Commit : σ → Option Error × σ
  Rollback : σ → σ

/-- Backend state together with the log of driver calls made so far. -/
structure SqlWorld (σ : Type) where
  st : σ
  log : List SqlEvent

/-- A transaction handle passed in by the caller (`tx DB` that is not nil). -/
abbrev TxHandle := Nat

/-- Call `t.Client.Begin()`. -/
def sqlBegin {σ : Type} (db : SqlBackend σ) (w : SqlWorld σ) : Option Error × SqlWorld σ :=
  ((db.Begin w.st).1, ⟨(db.Begin w.st).2, w.log ++ [SqlEvent.Begin]⟩)

/-- Call `tx.Exec(sql, args...)`. -/
def sqlExec {σ : Type} (db : SqlBackend σ) (s : Stmt) (w : SqlWorld σ) : Option Error × SqlWorld σ :=
  ((db.Exec s w.st).1, ⟨(db.Exec s w.st).2, w.log ++ [SqlEvent.Exec s]⟩)

/-- Call `tx.(*sql.Tx).Commit()`. -/
def sqlCommit {σ : Type} (db : SqlBackend σ) (w : SqlWorld σ) : Option Error × SqlWorld σ :=
  ((db.Commit w.st).1, ⟨(db.Commit w.st).2, w.log ++ [SqlEvent.Commit]⟩)

/-- Call `tx.(*sql.Tx).Rollback()`; its result is discarded by the callers. -/
def sqlRollback {σ : Type} (db : SqlBackend σ) (w : SqlWorld σ) : SqlWorld σ :=
  ⟨db.Rollback w.st, w.log ++ [SqlEvent.Rollback]⟩

/-- The deferred function of `PutObject` and `DeleteObject` (lines 153-160, 261-268):
commit when `err` is nil, then roll back when `err` is not nil. -/
def deferTx {σ : Type} (db : SqlBackend σ) (r : Option Error × SqlWorld σ) : Option Error × SqlWorld σ :=
  let r1 : Option Error × SqlWorld σ :=
    match r.1 with
    | none => sqlCommit db r.2
    | some e => (some e, r.2)
  match r1.1 with
  | some e => (some e, sqlRollback db r1.2)
  | none => r1

/-- Loop of lines 167-173, followed by the `return err` of line 175; `err` is the
variable shared with the object-row insert. -/
def putPartsLoop {σ : Type} (db : SqlBackend σ) (bucketName objectName version : String) :
    List (Int × Part) → Option Error → SqlWorld σ → Option Error × SqlWorld σ
  | [], err, w => (err, w)
  | (_, p) :: rest, _, w =>
    match sqlExec db (Stmt.InsertPart p bucketName objectName version) w with
    | (some e, w1) => (some e, w1)
    | (none, w1) => putPartsLoop db bucketName objectName version rest none w1

/-- Lines 162-175 of `PutObject`: the statements issued inside the transaction. -/
def putObjectBody {σ : Type} (db : SqlBackend σ) (object : Object) (w : SqlWorld σ) :
    Option Error × SqlWorld σ :=
  match sqlExec db (Stmt.InsertObject object) w with
  | (err, w1) =>
    match object.Parts with
    | none => (err, w1)
    | some parts =>
      let v := subU64 MaxUint64 (toUint64 object.LastModifiedTime.UnixNano)
      let version := toString v
      putPartsLoop db object.BucketName object.Name version parts err w1

/-- Method `TidbClient.PutObject` (object.go lines 147-176); `tx = none` is a nil `tx`. -/
def PutObject {σ : Type} (db : SqlBackend σ) (object : Object) (tx : Option TxHandle)
    (w : SqlWorld σ) : Option Error × SqlWorld σ :=
  match tx with
  | none =>
    match sqlBegin db w with
    | (some e, w1) => (some e, w1)
    | (none, w1) => deferTx db (putObjectBody db object w1)
  | some _ => putObjectBody db object w

/-- Lines 271-283 of `DeleteObject`. -/
def deleteObjectBody {σ : Type} (db : SqlBackend σ) (object : Object) (w : SqlWorld σ) :
    Option Error × SqlWorld σ :=
  let v := subU64 MaxUint64 (toUint64 object.LastModifiedTime.UnixNano)
  let version := toString v
  match sqlExec db (Stmt.DeleteObjectRow object.Name object.BucketName version) w with
  | (some e, w1) => (some e, w1)
  | (none, w1) =>
    match sqlExec db (Stmt.DeleteObjectParts object.Name object.BucketName version) w1 with
    | (some e, w2) => (some e, w2)
    | (none, w2) => (none, w2)

/-- Method `TidbClient.DeleteObject` (object.go lines 255-284). -/
def DeleteObject {σ : Type} (db : SqlBackend σ) (object : Object) (tx : Option TxHandle)
    (w : SqlWorld σ) : Option Error × SqlWorld σ :=
  match tx with
  | none =>
    match sqlBegin db w with
    | (some e, w1) => (some e, w1)
    | (none, w1) => deferTx db (deleteObjectBody db object w1)
  | some _ => deleteObjectBody db object w

/-! ## Bucket records and requests (storage/bucket.go) -/

/-- Constant `BUCKET_NUMBER_LIMIT` (bucket.go line 21). -/
def BUCKET_NUMBER_LIMIT : Nat := 100

/-- Lifecycle configuration `datatype.Lifecycle`; `Rule = none` is a nil slice. -/
structure Lifecycle where
  Rule : Option (List String)
  deriving DecidableEq, Repr

/-- CORS configuration `datatype.Cors`. -/
structure Cors where
  CorsRules : List String
  deriving DecidableEq, Repr

/-- Bucket policy document `policy.Policy`; its content is not inspected by bucket.go. -/
structure Policy where
  Statements : List String
  deriving DecidableEq, Repr

/-- Website configuration `datatype.WebsiteConfiguration`; its content is not inspected
by bucket.go. -/
structure WebsiteConfiguration where
  Document : String
  deriving DecidableEq, Repr

/-- Versioning request body `datatype.Versioning`. -/
structure Versioning where
  Status : String
  deriving DecidableEq, Repr

/-- Grant list `datatype.AccessControlPolicy`; only handed on to
`GetCannedAclFromPolicy`. -/
structure AccessControlPolicy where
  Grants : List String
  deriving DecidableEq, Repr

/-- Modelled from the spec: the constant `meta.VersionDisabled`, declared outside the
source files; the spec names the versioning states Disabled, Enabled and Suspended. -/
def VersionDisabled : String := "Disabled"

/-- Bucket record `meta.Bucket`. -/
structure Bucket where
  Name : String
  CreateTime : Int
  OwnerId : String
  CORS : Cors
  ACL : Acl
  Lifecycle : Lifecycle
  Policy : Policy
  Website : WebsiteConfiguration
  Versioning : String
  deriving DecidableEq, Repr

/-- Caller identity `common.Credential`. -/
structure Credential where
  UserId : String
  DisplayName : String
  AllowOtherUserAccess : Bool
  deriving DecidableEq, Repr

/-- The part of `RequestContext` bucket.go reads; `BucketInfo = none` is a nil pointer. -/
structure RequestContext where
  BucketName : String
  BucketInfo : Option Bucket
  deriving DecidableEq, Repr

/-- Listing request `datatype.ListObjectsRequest`. -/
structure ListObjectsRequest where
  Versioned : Bool
  Version : Int
  MaxKeys : Int
  Prefix : String
  Marker : String
  Delimiter : String
  ContinuationToken : String
  StartAfter : String
  KeyMarker : String
  VersionIdMarker : String
  EncodingType : String
  FetchOwner : Bool
  deriving DecidableEq, Repr

/-- Owner element `datatype.Owner`. -/
structure Owner where
  ID : String
  DisplayName : String
  deriving DecidableEq, Repr

/-- Listing entry `datatype.Object`. -/
structure DatatypeObject where
  Key : String
  LastModified : String
  ETag : String
  Size : Int
  StorageClass : String
  Owner : Owner
  deriving DecidableEq, Repr

/-- Listing page `meta.ListObjectsInfo`. -/
structure ListObjectsInfo where
  IsTruncated : Bool
  NextMarker : String
  Objects : List DatatypeObject
  Prefixes : List String
  deriving DecidableEq, Repr

/-- Zero value of `meta.ListObjectsInfo`. -/
def ListObjectsInfo.zero : ListObjectsInfo :=
  { IsTruncated := false, NextMarker := "", Objects := [], Prefixes := [] }

/-- Version listing entry `datatype.VersionedObject`; `XMLNameLocal` is `XMLName.Local`. -/
structure VersionedObject where
  XMLNameLocal : String
  Key : String
  LastModified : String
  ETag : String
  Size : Int
  StorageClass : String
  Owner : Owner
  VersionId : String
  DeleteMarker : Bool
  deriving DecidableEq, Repr

/-- Version listing page `meta.VersionedListObjectsInfo`. -/
structure VersionedListObjectsInfo where
  IsTruncated : Bool
  NextKeyMarker : String
  NextVersionIdMarker : String
  Objects : List VersionedObject
  Prefixes : List String
  deriving DecidableEq, Repr

/-- Zero value of `meta.VersionedListObjectsInfo`. -/
def VersionedListObjectsInfo.zero : VersionedListObjectsInfo :=
  { IsTruncated := false, NextKeyMarker := "", NextVersionIdMarker := "", Objects := [],
    Prefixes := [] }

/-- Cache tables `redis.UserTable` and `redis.BucketTable`. -/
inductive CacheTable where
  | UserTable
  | BucketTable
  deriving DecidableEq, Repr

/-! ## Collaborators of bucket.go -/

/-- Calls bucket.go makes into the meta store, the cache and the identity provider. -/
inductive Effect where
  | GetUserBuckets (userId : String) (willNeed : Bool)
  | GetBucket (bucketName : String) (willNeed : Bool)
  | PutNewBucket (b : Bucket)
  | PutBucket (b : Bucket)
  | DeleteBucket (b : Bucket)
  | IsEmptyBucket (bucketName : String)
  | PutBucketToLifeCycle (b : Bucket)
  | RemoveBucketFromLifeCycle (b : Bucket)
  | CacheRemove (table : CacheTable) (key : String)
  | ListObjects (bucketName marker pfx delimiter : String) (maxKeys : Int)
  | ListVersionedObjects (bucketName marker verIdMarker pfx delimiter : String) (maxKeys : Int)
  | GetCredentialByUserId (userId : String)
  deriving DecidableEq, Repr

/-- The collaborators of bucket.go over a backend state `σ`: `yig.MetaStorage` and its
`Client` and `Cache`, `iam.GetCredentialByUserId`, `time.Now`, and the pure helpers
`util.DecryptToString`, `util.Encrypt`, `datatype.GetCannedAclFromPolicy` and
`Policy.MarshalJSON`. Their code is outside the source files, so every theorem holds
for every such record. -/
structure Backend (σ : Type) where
  GetUserBuckets : String → Bool → σ → Except Error (List String) × σ
  GetBucket : String → Bool → σ → Except Error Bucket × σ
  PutNewBucket : Bucket → σ → Option Error × σ
  PutBucket : Bucket → σ → Option Error × σ
  DeleteBucket : Bucket → σ → Option Error × σ
  IsEmptyBucket : String → σ → Except Error Bool × σ
  PutBucketToLifeCycle : Bucket → σ → Option Error × σ
  RemoveBucketFromLifeCycle : Bucket → σ → Option Error × σ
  CacheRemove : CacheTable → String → σ → σ
  ListObjects : String → String → String → String → Int → σ → (ListObjectsInfo × Option Error) × σ
  ListVersionedObjects : String → String → String → String → String → Int → σ →
    (VersionedListObjectsInfo × Option Error) × σ
  GetCredentialByUserId : String → σ → Except Error Credential × σ
  Now : σ → Int
  DecryptToString : String → Except Error String
  Encrypt : String → String
  GetCannedAclFromPolicy : AccessControlPolicy → Except Error Acl
  MarshalJSON : Policy → Except Error String

/-- Backend state together with the trace of collaborator calls made so far. -/
structure World (σ : Type) where
  st : σ
  trace : List Effect

/-- Run one collaborator call on the state and append it to the trace. -/
def call {σ α : Type} (f : σ → α × σ) (e : Effect) (w : World σ) : α × World σ :=
  ((f w.st).1, ⟨(f w.st).2, w.trace ++ [e]⟩)

/-- Call `yig.MetaStorage.Cache.Remove(table, key)`. -/
def cacheRemove {σ : Type} (be : Backend σ) (table : CacheTable) (key : String) (w : World σ) :
    World σ :=
  ⟨be.CacheRemove table key w.st, w.trace ++ [Effect.CacheRemove table key]⟩

/-! ## Go standard library `url.QueryEscape` -/

/-- UTF-8 bytes of a character. -/
def utf8Bytes (c : Char) : List Nat :=
  let v := c.toNat
  if v < 128 then [v]
  else if v < 2048 then [192 + v / 64, 128 + v % 64]
  else if v < 65536 then [224 + v / 4096, 128 + v / 64 % 64, 128 + v % 64]
  else [240 + v / 262144, 128 + v / 4096 % 64, 128 + v / 64 % 64, 128 + v % 64]

/-- Upper-case hexadecimal digit used by `net/url`. -/
def upperHexDigit (d : Nat) : Char := "0123456789ABCDEF".data.getD d '0'

/-- Escape of one character in query-component mode: letters, digits and `-_.~` are
kept, a space becomes `+`, every other byte becomes `%XX`. -/
def escapeChar (c : Char) : List Char :=
  if c.isAlphanum ∨ c = '-' ∨ c = '_' ∨ c = '.' ∨ c = '~' then [c]
  else if c = ' ' then ['+']
  else (utf8Bytes c).flatMap fun b => ['%', upperHexDigit (b / 16), upperHexDigit (b % 16)]

/-- Go standard library `url.QueryEscape`. -/
def QueryEscape (s : String) : String := String.mk (s.data.flatMap escapeChar)

/-! ## Bucket administration (storage/bucket.go) -/

/-- Method `YigStorage.MakeBucket` (bucket.go lines 24-57). -/
def MakeBucket {σ : Type} (be : Backend σ) (reqCtx : RequestContext) (acl : Acl)
    (credential : Credential) (w : World σ) : Option Error × World σ :=
  match reqCtx.BucketInfo with
  | some _ => (some ErrBucketAlreadyExists, w)
  | none =>
    match call (be.GetUserBuckets credential.UserId false)
        (Effect.GetUserBuckets credential.UserId false) w with
    | (.error err, w1) => (some err, w1)
    | (.ok buckets, w1) =>
      if buckets.length + 1 > BUCKET_NUMBER_LIMIT then (some ErrTooManyBuckets, w1)
      else
        let now := be.Now w1.st
        let bucket : Bucket :=
          { Name := reqCtx.BucketName, CreateTime := now, OwnerId := credential.UserId,
            ACL := acl, Versioning := VersionDisabled, CORS := ⟨[]⟩, Lifecycle := ⟨none⟩,
            Policy := ⟨[]⟩, Website := ⟨""⟩ }
        match call (be.PutNewBucket bucket) (Effect.PutNewBucket bucket) w1 with
        | (some err, w2) => (some err, w2)
        | (none, w2) => (none, cacheRemove be CacheTable.UserTable credential.UserId w2)

/-- Method `YigStorage.SetBucketAcl` (bucket.go lines 59-86). -/
def SetBucketAcl {σ : Type} (be : Backend σ) (bucketName : String) (policy : AccessControlPolicy)
    (acl : Acl) (credential : Credential) (w : World σ) : Option Error × World σ :=
  match (if acl.CannedAcl = "" then be.GetCannedAclFromPolicy policy else .ok acl) with
  | .error err => (some err, w)
  | .ok acl1 =>
    match call (be.GetBucket bucketName false) (Effect.GetBucket bucketName false) w with
    | (.error err, w1) => (some err, w1)
    | (.ok bucket, w1) =>
      if bucket.OwnerId ≠ credential.UserId then (some ErrBucketAccessForbidden, w1)
      else
        let bucket1 := { bucket with ACL := acl1 }
        match call (be.PutBucket bucket1) (Effect.PutBucket bucket1) w1 with
        | (some err, w2) => (some err, w2)
        | (none, w2) => (none, cacheRemove be CacheTable.BucketTable bucketName w2)

/-- Method `YigStorage.SetBucketLifecycle` (bucket.go lines 88-113). -/
def SetBucketLifecycle {σ : Type} (be : Backend σ) (bucketName : String) (lc : Lifecycle)
    (credential : Credential) (w : World σ) : Option Error × World σ :=
  match call (be.GetBucket bucketName true) (Effect.GetBucket bucketName true) w with
  | (.error err, w1) => (some err, w1)
  | (.ok bucket, w1) =>
    if bucket.OwnerId ≠ credential.UserId then (some ErrBucketAccessForbidden, w1)
    else
      let bucket1 := { bucket with Lifecycle := lc }
      match call (be.PutBucket bucket1) (Effect.PutBucket bucket1) w1 with
      | (some err, w2) => (some err, w2)
      | (none, w2) =>
        let w3 := cacheRemove be CacheTable.BucketTable bucketName w2
        match call (be.PutBucketToLifeCycle bucket1) (Effect.PutBucketToLifeCycle bucket1) w3 with
        | (some err, w4) => (some err, w4)
        | (none, w4) => (none, w4)

/-- Method `YigStorage.DelBucketLifecycle` (bucket.go lines 132-154). -/
def DelBucketLifecycle {σ : Type} (be : Backend σ) (bucketName : String)
    (credential : Credential) (w : World σ) : Option Error × World σ :=
  match call (be.GetBucket bucketName true) (Effect.GetBucket bucketName true) w with
  | (.error err, w1) => (some err, w1)
  | (.ok bucket, w1) =>
    if bucket.OwnerId ≠ credential.UserId then (some ErrBucketAccessForbidden, w1)
    else
      let bucket1 := { bucket with Lifecycle := ⟨none⟩ }
      match call (be.PutBucket bucket1) (Effect.PutBucket bucket1) w1 with
      | (some err, w2) => (some err, w2)
      | (none, w2) =>
        let w3 := cacheRemove be CacheTable.BucketTable bucketName w2
        match call (be.RemoveBucketFromLifeCycle bucket1)
            (Effect.RemoveBucketFromLifeCycle bucket1) w3 with
        | (some err, w4) => (some err, w4)
        | (none, w4) => (none, w4)

/-- Method `YigStorage.SetBucketCors` (bucket.go lines 156-175). -/
def SetBucketCors {σ : Type} (be : Backend σ) (bucketName : String) (cors : Cors)
    (credential : Credential) (w : World σ) : Option Error × World σ :=
  match call (be.GetBucket bucketName false) (Effect.GetBucket bucketName false) w with
  | (.error err, w1) => (some err, w1)
  | (.ok bucket, w1) =>
    if bucket.OwnerId ≠ credential.UserId then (some ErrBucketAccessForbidden, w1)
    else
      let bucket1 := { bucket with CORS := cors }
      match call (be.PutBucket bucket1) (Effect.PutBucket bucket1) w1 with
      | (some err, w2) => (some err, w2)
      | (none, w2) => (none, cacheRemove be CacheTable.BucketTable bucketName w2)

/-- Method `YigStorage.DeleteBucketCors` (bucket.go lines 177-194). -/
def DeleteBucketCors {σ : Type} (be : Backend σ) (bucketName : String)
    (credential : Credential) (w : World σ) : Option Error × World σ :=
  match call (be.GetBucket bucketName false) (Effect.GetBucket bucketName false) w with
  | (.error err, w1) => (some err, w1)
  | (.ok bucket, w1) =>
    if bucket.OwnerId ≠ credential.UserId then (some ErrBucketAccessForbidden, w1)
    else
      let bucket1 := { bucket with CORS := ⟨[]⟩ }
      match call (be.PutBucket bucket1) (Effect.PutBucket bucket1) w1 with
      | (some err, w2) => (some err, w2)
      | (none, w2) => (none, cacheRemove be CacheTable.BucketTable bucketName w2)

/-- Method `YigStorage.SetBucketVersioning` (bucket.go lines 214-233). -/
def SetBucketVersioning {σ : Type} (be : Backend σ) (bucketName : String)
    (versioning : Versioning) (credential : Credential) (w : World σ) :
    Option Error × World σ :=
  match call (be.GetBucket bucketName false) (Effect.GetBucket bucketName false) w with
  | (.error err, w1) => (some err, w1)
  | (.ok bucket, w1) =>
    if bucket.OwnerId ≠ credential.UserId then (some ErrBucketAccessForbidden, w1)
    else
      let bucket1 := { bucket with Versioning := versioning.Status }
      match call (be.PutBucket bucket1) (Effect.PutBucket bucket1) w1 with
      | (some err, w2) => (some err, w2)
      | (none, w2) => (none, cacheRemove be CacheTable.BucketTable bucketName w2)

/-- Method `YigStorage.GetBucketInfo` (bucket.go lines 273-294); the result is the
returned pair `(bucket, err)`. -/
def GetBucketInfo {σ : Type} (be : Backend σ) (bucketName : String) (credential : Credential)
    (w : World σ) : (Option Bucket × Option Error) × World σ :=
  match call (be.GetBucket bucketName true) (Effect.GetBucket bucketName true) w with
  | (.error err, w1) => ((none, some err), w1)
  | (.ok bucket, w1) =>
    if ¬ credential.AllowOtherUserAccess then
      if bucket.OwnerId ≠ credential.UserId then
        if bucket.ACL.CannedAcl = "public-read" ∨ bucket.ACL.CannedAcl = "public-read-write"
            ∨ bucket.ACL.CannedAcl = "authenticated-read" then
          ((some bucket, none), w1)
        else ((some bucket, some ErrBucketAccessForbidden), w1)
      else ((some bucket, none), w1)
    else ((some bucket, none), w1)

/-- Method `YigStorage.GetBucketInfoByCtx` (bucket.go lines 296-316). -/
def GetBucketInfoByCtx (ctx : RequestContext) (credential : Credential) :
    Option Bucket × Option Error :=
  match ctx.BucketInfo with
  | none => (none, some ErrNoSuchBucket)
  | some bucket =>
    if ¬ credential.AllowOtherUserAccess then
      if bucket.OwnerId ≠ credential.UserId then
        if bucket.ACL.CannedAcl = "public-read" ∨ bucket.ACL.CannedAcl = "public-read-write"
            ∨ bucket.ACL.CannedAcl = "authenticated-read" then
          (some bucket, none)
        else (some bucket, some ErrBucketAccessForbidden)
      else (some bucket, none)
    else (some bucket, none)

/-- Method `YigStorage.SetBucketPolicy` (bucket.go lines 318-346). -/
def SetBucketPolicy {σ : Type} (be : Backend σ) (credential : Credential) (bucketName : String)
    (bucketPolicy : Policy) (w : World σ) : Option Error × World σ :=
  match call (be.GetBucket bucketName false) (Effect.GetBucket bucketName false) w with
  | (.error err, w1) => (some err, w1)
  | (.ok bucket, w1) =>
    if bucket.OwnerId ≠ credential.UserId then (some ErrBucketAccessForbidden, w1)
    else
      match be.MarshalJSON bucketPolicy with
      | .error err => (some err, w1)
      | .ok p =>
        let bucket1 : Bucket :=
          if p = "" then { bucket with Policy := ⟨[]⟩ } else { bucket with Policy := bucketPolicy }
        match call (be.PutBucket bucket1) (Effect.PutBucket bucket1) w1 with
        | (some err, w2) => (some err, w2)
        | (none, w2) => (none, cacheRemove be CacheTable.BucketTable bucketName w2)

/-- Method `YigStorage.DeleteBucketPolicy` (bucket.go lines 371-388). -/
def DeleteBucketPolicy {σ : Type} (be : Backend σ) (credential : Credential)
    (bucketName : String) (w : World σ) : Option Error × World σ :=
  match call (be.GetBucket bucketName false) (Effect.GetBucket bucketName false) w with
  | (.error err, w1) => (some err, w1)
  | (.ok bucket, w1) =>
    if bucket.OwnerId ≠ credential.UserId then (some ErrBucketAccessForbidden, w1)
    else
      let bucket1 := { bucket with Policy := ⟨[]⟩ }
      match call (be.PutBucket bucket1) (Effect.PutBucket bucket1) w1 with
      | (some err, w2) => (some err, w2)
      | (none, w2) => (none, cacheRemove be CacheTable.BucketTable bucketName w2)

/-- Method `YigStorage.SetBucketWebsite` (bucket.go lines 390-398): it receives the
bucket record itself and no credential. -/
def SetBucketWebsite {σ : Type} (be : Backend σ) (bucket : Bucket)
    (config : WebsiteConfiguration) (w : World σ) : Option Error × World σ :=
  let bucket1 := { bucket with Website := config }
  match call (be.PutBucket bucket1) (Effect.PutBucket bucket1) w with
  | (some err, w1) => (some err, w1)
  | (none, w1) => (none, cacheRemove be CacheTable.BucketTable bucket1.Name w1)

/-- Method `YigStorage.DeleteBucketWebsite` (bucket.go lines 408-416): it receives the
bucket record itself and no credential. -/
def DeleteBucketWebsite {σ : Type} (be : Backend σ) (bucket : Bucket) (w : World σ) :
    Option Error × World σ :=
  let bucket1 := { bucket with Website := ⟨""⟩ }
  match call (be.PutBucket bucket1) (Effect.PutBucket bucket1) w with
  | (some err, w1) => (some err, w1)
  | (none, w1) => (none, cacheRemove be CacheTable.BucketTable bucket1.Name w1)

/-- Method `YigStorage.DeleteBucket` (bucket.go lines 433-470). A failure of
`RemoveBucketFromLifeCycle` is only logged. -/
def DeleteBucket {σ : Type} (be : Backend σ) (reqCtx : RequestContext)
    (credential : Credential) (w : World σ) : Option Error × World σ :=
  match reqCtx.BucketInfo with
  | none => (some ErrNoSuchBucket, w)
  | some bucket =>
    if bucket.OwnerId ≠ credential.UserId then (some ErrBucketAccessForbidden, w)
    else
      let bucketName := reqCtx.BucketName
      match call (be.IsEmptyBucket bucketName) (Effect.IsEmptyBucket bucketName) w with
      | (.error err, w1) => (some err, w1)
      | (.ok isEmpty, w1) =>
        if ¬ isEmpty then (some ErrBucketNotEmpty, w1)
        else
          match call (be.DeleteBucket bucket) (Effect.DeleteBucket bucket) w1 with
          | (some err, w2) => (some err, w2)
          | (none, w2) =>
            let w3 := cacheRemove be CacheTable.UserTable credential.UserId w2
            let w4 := cacheRemove be CacheTable.BucketTable bucketName w3
            match bucket.Lifecycle.Rule with
            | some _ =>
              (none, (call (be.RemoveBucketFromLifeCycle bucket)
                (Effect.RemoveBucketFromLifeCycle bucket) w4).2)
            | none => (none, w4)

/-! ## Listing (storage/bucket.go) -/

/-- Method `YigStorage.ListObjectsInternal` (bucket.go lines 472-495): resolve the marker
of the listing protocol, then query the object store once. -/
def ListObjectsInternal {σ : Type} (be : Backend σ) (bucketName : String)
    (request : ListObjectsRequest) (w : World σ) : (ListObjectsInfo × Option Error) × World σ :=
  if request.Versioned then
    call (be.ListObjects bucketName request.KeyMarker request.Prefix request.Delimiter request.MaxKeys)
      (Effect.ListObjects bucketName request.KeyMarker request.Prefix request.Delimiter
        request.MaxKeys) w
  else if request.Version = 2 then
    if request.ContinuationToken ≠ "" then
      match be.DecryptToString request.ContinuationToken with
      | .error _ => ((ListObjectsInfo.zero, some ErrInvalidContinuationToken), w)
      | .ok marker =>
        call (be.ListObjects bucketName marker request.Prefix request.Delimiter request.MaxKeys)
          (Effect.ListObjects bucketName marker request.Prefix request.Delimiter request.MaxKeys) w
    else
      call (be.ListObjects bucketName request.StartAfter request.Prefix request.Delimiter
          request.MaxKeys)
        (Effect.ListObjects bucketName request.StartAfter request.Prefix request.Delimiter
          request.MaxKeys) w
  else
    call (be.ListObjects bucketName request.Marker request.Prefix request.Delimiter request.MaxKeys)
      (Effect.ListObjects bucketName request.Marker request.Prefix request.Delimiter
        request.MaxKeys) w

/-- Method `YigStorage.ListVersionedObjectsInternal` (bucket.go lines 497-522). -/
def ListVersionedObjectsInternal {σ : Type} (be : Backend σ) (bucketName : String)
    (request : ListObjectsRequest) (w : World σ) :
    (VersionedListObjectsInfo × Option Error) × World σ :=
  if request.Versioned then
    call (be.ListVersionedObjects bucketName request.KeyMarker request.VersionIdMarker
        request.Prefix request.Delimiter request.MaxKeys)
      (Effect.ListVersionedObjects bucketName request.KeyMarker request.VersionIdMarker
        request.Prefix request.Delimiter request.MaxKeys) w
  else if request.Version = 2 then
    if request.ContinuationToken ≠ "" then
      match be.DecryptToString request.ContinuationToken with
      | .error _ => ((VersionedListObjectsInfo.zero, some ErrInvalidContinuationToken), w)
      | .ok marker =>
        call (be.ListVersionedObjects bucketName marker "" request.Prefix request.Delimiter
            request.MaxKeys)
          (Effect.ListVersionedObjects bucketName marker "" request.Prefix request.Delimiter
            request.MaxKeys) w
    else
      call (be.ListVersionedObjects bucketName request.StartAfter "" request.Prefix
          request.Delimiter request.MaxKeys)
        (Effect.ListVersionedObjects bucketName request.StartAfter "" request.Prefix
          request.Delimiter request.MaxKeys) w
  else
    call (be.ListVersionedObjects bucketName request.Marker "" request.Prefix request.Delimiter
        request.MaxKeys)
      (Effect.ListVersionedObjects bucketName request.Marker "" request.Prefix request.Delimiter
        request.MaxKeys) w

/-- Loop of `ListObjects` (bucket.go lines 556-582). `objects` is the slice built so far
and `err` the error variable of the function, which every identity lookup overwrites.
`.error e` is the `return` inside the loop, `.ok (objects, err)` the normal exit. -/
def listObjectsLoop {σ : Type} (be : Backend σ) (request : ListObjectsRequest) :
    List DatatypeObject → List DatatypeObject → Option Error → World σ →
    Except Error (List DatatypeObject × Option Error) × World σ
  | [], objects, err, w => (.ok (objects, err), w)
  | obj :: rest, objects, err, w =>
    let object : DatatypeObject :=
      { LastModified := obj.LastModified, ETag := "\"" ++ obj.ETag ++ "\"", Size := obj.Size,
        StorageClass := "STANDARD",
        Key := if request.EncodingType ≠ "" then QueryEscape obj.Key else obj.Key,
        Owner := ⟨"", ""⟩ }
    if request.FetchOwner then
      match call (be.GetCredentialByUserId obj.Owner.ID)
          (Effect.GetCredentialByUserId obj.Owner.ID) w with
      | (.error e, w1) => (.error e, w1)
      | (.ok owner, w1) =>
        listObjectsLoop be request rest
          (objects ++ [{ object with Owner := ⟨owner.UserId, owner.DisplayName⟩ }]) none w1
    else listObjectsLoop be request rest (objects ++ [object]) err w

/-- Method `YigStorage.ListObjects` (bucket.go lines 524-594); the result is the
returned pair `(result, err)`. The error of `ListObjectsInternal` is not tested: it
stays in `err` while the page is shaped. -/
def ListObjects {σ : Type} (be : Backend σ) (reqCtx : RequestContext) (credential : Credential)
    (request : ListObjectsRequest) (w : World σ) : (ListObjectsInfo × Option Error) × World σ :=
  match reqCtx.BucketInfo with
  | none => ((ListObjectsInfo.zero, some ErrNoSuchBucket), w)
  | some bucket =>
    if (if bucket.ACL.CannedAcl = "public-read" ∨ bucket.ACL.CannedAcl = "public-read-write" then
          false
        else if bucket.ACL.CannedAcl = "authenticated-read" then
          decide (credential.UserId = "")
        else decide (bucket.OwnerId ≠ credential.UserId)) then
      ((ListObjectsInfo.zero, some ErrBucketAccessForbidden), w)
    else
      match ListObjectsInternal be bucket.Name request w with
      | ((info, err), w1) =>
        let result0 := ListObjectsInfo.zero
        let result1 :=
          if info.IsTruncated ∧ info.NextMarker ≠ "" then
            { result0 with NextMarker := info.NextMarker }
          else result0
        let result2 :=
          if request.Version = 2 then { result1 with NextMarker := be.Encrypt result1.NextMarker }
          else result1
        match listObjectsLoop be request info.Objects [] err w1 with
        | (.error e, w2) => ((result2, some e), w2)
        | (.ok (objects, err1), w2) =>
          let result3 :=
            { result2 with
              Objects := objects, Prefixes := info.Prefixes, IsTruncated := info.IsTruncated }
          let result4 :=
            if request.EncodingType ≠ "" then
              { result3 with
                Prefixes := result3.Prefixes.map QueryEscape,
                NextMarker := QueryEscape result3.NextMarker }
            else result3
          ((result4, err1), w2)

/-- Loop of `ListVersionedObjects` (bucket.go lines 628-658), with the same conventions
as `listObjectsLoop`. -/
def listVersionedObjectsLoop {σ : Type} (be : Backend σ) (request : ListObjectsRequest) :
    List VersionedObject → List VersionedObject → Option Error → World σ →
    Except Error (List VersionedObject × Option Error) × World σ
  | [], objects, err, w => (.ok (objects, err), w)
  | o :: rest, objects, err, w =>
    let object : VersionedObject :=
      { LastModified := o.LastModified, ETag := "\"" ++ o.ETag ++ "\"", Size := o.Size,
        StorageClass := "STANDARD",
        Key := if request.EncodingType ≠ "" then QueryEscape o.Key else o.Key,
        VersionId := o.VersionId,
        XMLNameLocal := if o.DeleteMarker then "DeleteMarker" else "Version",
        Owner := ⟨"", ""⟩, DeleteMarker := false }
    if request.FetchOwner then
      match call (be.GetCredentialByUserId o.Owner.ID)
          (Effect.GetCredentialByUserId o.Owner.ID) w with
      | (.error e, w1) => (.error e, w1)
      | (.ok owner, w1) =>
        listVersionedObjectsLoop be request rest
          (objects ++ [{ object with Owner := ⟨owner.UserId, owner.DisplayName⟩ }]) none w1
    else listVersionedObjectsLoop be request rest (objects ++ [object]) err w

/-- Method `YigStorage.ListVersionedObjects` (bucket.go lines 598-671). -/
def ListVersionedObjects {σ : Type} (be : Backend σ) (reqCtx : RequestContext)
    (credential : Credential) (request : ListObjectsRequest) (w : World σ) :
    (VersionedListObjectsInfo × Option Error) × World σ :=
  match reqCtx.BucketInfo with
  | none => ((VersionedListObjectsInfo.zero, some ErrNoSuchBucket), w)
  | some bucket =>
    if (if bucket.ACL.CannedAcl = "public-read" ∨ bucket.ACL.CannedAcl = "public-read-write" then
          false
        else if bucket.ACL.CannedAcl = "authenticated-read" then
          decide (credential.UserId = "")
        else decide (bucket.OwnerId ≠ credential.UserId)) then
      ((VersionedListObjectsInfo.zero, some ErrBucketAccessForbidden), w)
    else
      match ListVersionedObjectsInternal be bucket.Name request w with
      | ((info, err), w1) =>
        let result0 := VersionedListObjectsInfo.zero
        let result1 :=
          if info.IsTruncated ∧ info.NextKeyMarker ≠ "" then
            { result0 with
              NextKeyMarker := info.NextKeyMarker,
              NextVersionIdMarker := info.NextVersionIdMarker }
          else result0
        match listVersionedObjectsLoop be request info.Objects [] err w1 with
        | (.error e, w2) => ((result1, some e), w2)
        | (.ok (objects, err1), w2) =>
          let result2 :=
            { result1 with
              Objects := objects, Prefixes := info.Prefixes, IsTruncated := info.IsTruncated }
          let result3 :=
            if request.EncodingType ≠ "" then
              { result2 with
                Prefixes := result2.Prefixes.map QueryEscape,
                NextKeyMarker := QueryEscape result2.NextKeyMarker }
            else result2
          ((result3, err1), w2)

/-! ## Sample data used to instantiate the theorems -/

/-- A row of `objects` for the given bucket, key and stored version; the two serialized
columns hold the empty JSON object, the other columns are empty. -/
def sampleRow (bucket key : String) (version : Nat) : ObjectRow :=
  { bucketname := bucket, name := key, version := version, location := "", pool := "",
    ownerid := "", size := 0, objectid := "", lastmodifiedtime := "", etag := "",
    contenttype := "", customattributes := "\x7b\x7d", acl := "\x7b\x7d", nullversion := false,
    deletemarker := false, ssetype := "", encryptionkey := "", initializationvector := "",
    type := 0, storageclass := 0 }

/-- A client whose table holds, for key `k` of bucket `b`, one version created 5 ns and
one created 9 ns after the epoch, and a row of another key. -/
def sampleClient : SqlClient :=
  { objects := [sampleRow "b" "k" (versionKey 5), sampleRow "b" "other" (versionKey 7),
      sampleRow "b" "k" (versionKey 9)],
    objectpart := [], queryRowFailure := none, queryFailure := none }

/-- The creation time a stored version decodes to (line 60 of object.go and the
conversion of line 61). -/
def storedNanos (r : ObjectRow) : Int := toInt64 (rversion r.version)

/-- A part with the given number and offset, other fields empty. -/
def samplePart (number offset : Int) : Part :=
  { PartNumber := number, Size := 0, ObjectId := "", Offset := offset, Etag := "",
    LastModified := "", InitializationVector := "" }

/-- A part map with parts 1, 2, 3 at offsets 0, 10, 25, visited in the order 2, 1, 3. -/
def sampleParts : PartMap :=
  [(2, samplePart 2 10), (1, samplePart 1 0), (3, samplePart 3 25)]

/-- A client with one version of key `k` in bucket `b` and its three part rows, all
scanned without error and delivered in the order 2, 1, 3. -/
def multipartClient : SqlClient :=
  { objects := [sampleRow "b" "k" (versionKey 5)],
    objectpart :=
      [{ bucketname := "b", objectname := "k", version := versionKey 5,
         scanned := samplePart 2 10, scanErr := none },
       { bucketname := "b", objectname := "k", version := versionKey 5,
         scanned := samplePart 1 0, scanErr := none },
       { bucketname := "b", objectname := "k", version := versionKey 5,
         scanned := samplePart 3 25, scanErr := none }],
    queryRowFailure := none, queryFailure := none }

/-- A bucket record with the given name, owner and canned ACL, other attributes empty. -/
def sampleBucket (name owner cannedAcl : String) : Bucket :=
  { Name := name, CreateTime := 0, OwnerId := owner, CORS := ⟨[]⟩, ACL := ⟨cannedAcl⟩,
    Lifecycle := ⟨none⟩, Policy := ⟨[]⟩, Website := ⟨""⟩, Versioning := VersionDisabled }

/-- A one-entry listing page that reports truncation with next key `next`. -/
def samplePage (next : String) : ListObjectsInfo :=
  { IsTruncated := true, NextMarker := next,
    Objects := [{ Key := "a b", LastModified := "", ETag := "e", Size := 1,
                  StorageClass := "", Owner := ⟨"alice", ""⟩ }],
    Prefixes := [] }

/-- A one-entry version listing page that reports truncation with next key `next`. -/
def sampleVersionedPage (next : String) : VersionedListObjectsInfo :=
  { IsTruncated := true, NextKeyMarker := next, NextVersionIdMarker := "v",
    Objects := [{ XMLNameLocal := "", Key := "a b", LastModified := "", ETag := "e", Size := 1,
                  StorageClass := "", Owner := ⟨"alice", ""⟩, VersionId := "v",
                  DeleteMarker := false }],
    Prefixes := [] }

/-- An in-memory stand-in for the collaborators: the state is the bucket table; no call
fails; a token is the key behind a `#` sign. -/
def sampleBackend : Backend (List Bucket) :=
  { GetUserBuckets := fun uid _ s => (.ok ((s.filter fun b => b.OwnerId = uid).map fun b => b.Name), s)
    GetBucket := fun name _ s =>
      (match s.find? fun b => b.Name = name with
        | some b => .ok b
        | none => .error ErrNoSuchBucket, s)
    PutNewBucket := fun b s => (none, s ++ [b])
    PutBucket := fun b s => (none, s.map fun x => if x.Name = b.Name then b else x)
    DeleteBucket := fun b s => (none, s.filter fun x => x.Name ≠ b.Name)
    IsEmptyBucket := fun _ s => (.ok true, s)
    PutBucketToLifeCycle := fun _ s => (none, s)
    RemoveBucketFromLifeCycle := fun _ s => (none, s)
    CacheRemove := fun _ _ s => s
    ListObjects := fun _ marker _ _ _ s => ((samplePage (marker ++ "z"), none), s)
    ListVersionedObjects := fun _ marker _ _ _ _ s => ((sampleVersionedPage (marker ++ "z"), none), s)
    GetCredentialByUserId := fun uid s => (.ok ⟨uid, uid, false⟩, s)
    Now := fun _ => 0
    DecryptToString := fun t =>
      match t.data with
      | '#' :: rest => .ok (String.mk rest)
      | _ => .error (Other "malformed token")
    Encrypt := fun s => if s = "" then "" else String.mk ('#' :: s.data)
    GetCannedAclFromPolicy := fun _ => .ok ⟨"private"⟩
    MarshalJSON := fun p => .ok (String.join p.Statements) }

/-- A world whose table holds `n` buckets of owner `alice`. -/
def sampleWorld (n : Nat) : World (List Bucket) :=
  ⟨(List.range n).map fun i => sampleBucket (toString i) "alice" "private", []⟩

/-- The credential of user `uid`. -/
def sampleCredential (uid : String) : Credential :=
  { UserId := uid, DisplayName := uid, AllowOtherUserAccess := false }

/-- A version-1 listing request without marker. -/
def sampleRequest : ListObjectsRequest :=
  { Versioned := false, Version := 1, MaxKeys := 1000, Prefix := "", Marker := "",
    Delimiter := "", ContinuationToken := "", StartAfter := "", KeyMarker := "",
    VersionIdMarker := "", EncodingType := "", FetchOwner := false }

/-- A world whose table holds the single bucket `b` of owner `alice`. -/
def aliceWorld : World (List Bucket) := ⟨[sampleBucket "b" "alice" "private"], []⟩

/-- A SQL driver on which the insert of the object row fails (the row already exists)
and every other statement succeeds; the state lists the rows written by the open or
committed transaction, and a rollback empties it. -/
def dupSql : SqlBackend (List Stmt) :=
  { Begin := fun s => (none, s)
    Exec := fun stmt s =>
      match stmt with
      | Stmt.InsertObject _ => (some (Other "duplicate entry"), s)
      | _ => (none, s ++ [stmt])
    Commit := fun s => (none, s)
    Rollback := fun _ => [] }

/-- A multipart object `k` of bucket `b`, created 5 ns after the epoch, with one part. -/
def sampleObject : Object :=
  { Object.zero with
    Name := "k", BucketName := "b", LastModifiedTime := ⟨0, 5⟩,
    Parts := some [(1, samplePart 1 0)] }

/-- Stand-ins for the helpers of `GetObject`: the text of the empty JSON object parses
to the zero ACL and to the empty attribute map, every other text (the empty string
included) is refused as `json.Unmarshal` refuses malformed input; the cipher is the
identity on bytes. -/
def sampleDeps : Deps :=
  { unmarshalAcl := fun s =>
      if s = "\x7b\x7d" then .ok ⟨""⟩ else .error (Other "invalid JSON text")
    unmarshalAttrs := fun s =>
      if s = "\x7b\x7d" then .ok [] else .error (Other "invalid JSON text")
    xxteaEncrypt := fun s => s.data.map Char.toNat }

/-- A version-2 listing request with the given continuation token. -/
def sampleRequestV2 (token : String) : ListObjectsRequest :=
  { sampleRequest with Version := 2, ContinuationToken := token, StartAfter := "s" }

/-- The in-memory backend with an emptiness check that reports objects in every bucket. -/
def nonEmptyBackend : Backend (List Bucket) :=
  { sampleBackend with IsEmptyBucket := fun _ s => (.ok false, s) }

/-- The in-memory backend with an emptiness check that fails. -/
def brokenEmptinessBackend : Backend (List Bucket) :=
  { sampleBackend with IsEmptyBucket := fun _ s => (.error (Other "connection lost"), s) }

/-! ## Predicates used to state frame properties -/

/-- A run that started in world `w` and ended with result `r` either returned an error
or made, among its own calls, the call `Cache.Remove(table, key)`. -/
def InvalidatesOnSuccess {σ : Type} (w : World σ) (r : Option Error × World σ)
    (table : CacheTable) (key : String) : Prop :=
  r.1 = none → ∃ ext, r.2.trace = w.trace ++ ext ∧ Effect.CacheRemove table key ∈ ext

/-- A client with one version of key `k` in bucket `b` and two part rows for it: the scan
of the first row fails after the offset column was read, the scan of the second row
succeeds. -/
def lossyClient : SqlClient :=
  { objects := [sampleRow "b" "k" (versionKey 5)],
    objectpart :=
      [{ bucketname := "b", objectname := "k", version := versionKey 5,
         scanned := samplePart 1 0,
         scanErr := some (Other "converting NULL to string is unsupported") },
       { bucketname := "b", objectname := "k", version := versionKey 5,
         scanned := samplePart 2 10, scanErr := none }],
    queryRowFailure := none, queryFailure := none }

/-- The client `lossyClient` with its two part rows delivered in the other order, so that
the failing scan is the last one. -/
def lossyClientLast : SqlClient :=
  { lossyClient with objectpart := lossyClient.objectpart.reverse }

/-- The in-memory backend with a store that answers with the last page of a listing (not
truncated, no next key) and a token cipher that prefixes `#` to every key, the empty
key included, as a cipher that pads its input does. -/
def padBackend : Backend (List Bucket) :=
  { sampleBackend with
    ListObjects := fun _ _ _ _ _ s => ((ListObjectsInfo.zero, none), s)
    Encrypt := fun s => String.mk ('#' :: s.data) }

end Yig

namespace Yig

theorem toUint64_lt (n : Int) : toUint64 n < 2 ^ 64 := by
  unfold toUint64
  have h := Int.emod_lt_of_pos n (show (0 : Int) < 2 ^ 64 by norm_num)
  have h0 := Int.emod_nonneg n (show (2 ^ 64 : Int) ≠ 0 by norm_num)
  omega

theorem toUint64_of_nonneg (n : Int) (h0 : 0 ≤ n) (h1 : n < 2 ^ 63) : toUint64 n = n.toNat := by
  unfold toUint64
  rw [Int.emod_eq_of_lt h0 (by omega)]

theorem toUint64_of_neg (n : Int) (h0 : -(2 ^ 63 : Int) ≤ n) (h1 : n < 0) :
    toUint64 n = (n + 2 ^ 64).toNat := by
  unfold toUint64
  have : n % (2 ^ 64 : Int) = n + 2 ^ 64 := by
    rw [← Int.add_emod_self]
    exact Int.emod_eq_of_lt (by omega) (by omega)
  rw [this]

theorem versionKey_eq (n : Int) : versionKey n = 2 ^ 64 - 1 - toUint64 n := by
  have h := toUint64_lt n
  unfold versionKey subU64 MaxUint64
  omega

theorem rversion_versionKey (n : Int) : rversion (versionKey n) = toUint64 n := by
  have h := toUint64_lt n
  rw [versionKey_eq]
  unfold rversion subU64 MaxUint64
  omega

theorem toInt64_toUint64 (n : Int) (h : inInt64 n) : toInt64 (toUint64 n) = n := by
  obtain ⟨h0, h1⟩ := h
  by_cases hn : 0 ≤ n
  · rw [toUint64_of_nonneg n hn h1]
    unfold toInt64
    have : n.toNat % 2 ^ 64 = n.toNat := Nat.mod_eq_of_lt (by omega)
    rw [this]
    split <;> omega
  · rw [toUint64_of_neg n h0 (by omega)]
    unfold toInt64
    have : (n + 2 ^ 64).toNat % 2 ^ 64 = (n + 2 ^ 64).toNat := Nat.mod_eq_of_lt (by omega)
    rw [this]
    split <;> omega

end Yig

namespace Yig

open Error

/-! ## Version key: ordering and decoding -/

theorem versionKey_lt_iff (n1 n2 : Int) (h1 : inInt64 n1) (h2 : inInt64 n2) (hlt : n1 < n2) :
    versionKey n2 < versionKey n1 ↔ ¬ (n1 < 0 ∧ 0 ≤ n2) := by
  obtain ⟨a1, b1⟩ := h1
  obtain ⟨a2, b2⟩ := h2
  rw [versionKey_eq, versionKey_eq]
  have l1 := toUint64_lt n1
  have l2 := toUint64_lt n2
  by_cases c1 : 0 ≤ n1
  · rw [toUint64_of_nonneg n1 c1 b1, toUint64_of_nonneg n2 (by omega) b2] at *
    omega
  · by_cases c2 : 0 ≤ n2
    · rw [toUint64_of_neg n1 a1 (by omega), toUint64_of_nonneg n2 c2 b2] at *
      omega
    · rw [toUint64_of_neg n1 a1 (by omega), toUint64_of_neg n2 a2 (by omega)] at *
      omega

theorem tdiv_tmod_bounds (n : Int) :
    Int.tdiv n 1000000000 * 1000000000 + Int.tmod n 1000000000 = n ∧
      -1000000000 < Int.tmod n 1000000000 ∧ Int.tmod n 1000000000 < 1000000000 := by
  refine ⟨Int.tdiv_add_tmod' n 1000000000, ?_, Int.tmod_lt_of_pos n (by norm_num)⟩
  by_cases h : 0 ≤ n
  · have := Int.tmod_nonneg (1000000000 : Int) h
    omega
  · have e : n = -(-n) := by omega
    have hd : Int.tdiv n 1000000000 = -((-n) / 1000000000) := by
      rw [e, Int.neg_tdiv, Int.tdiv_eq_ediv (by omega) (by norm_num)]
      simp
    have hm := Int.tmod_def n 1000000000
    rw [hd] at hm
    omega

theorem timeUnix_total (s ns : Int) (h1 : -1000000000 < ns) (h2 : ns < 1000000000) :
    (timeUnix s ns).sec * 1000000000 + (timeUnix s ns).nsec = s * 1000000000 + ns := by
  unfold timeUnix
  by_cases hneg : ns < 0
  · have hd : Int.tdiv ns 1000000000 = 0 := by
      have e : ns = -(-ns) := by omega
      rw [e, Int.neg_tdiv, Int.tdiv_eq_ediv (by omega) (by norm_num)]
      have : (-ns) / 1000000000 = 0 := Int.ediv_eq_zero_of_lt (by omega) (by omega)
      rw [this]; rfl
    simp only [hd]
    rw [if_pos (Or.inl hneg)]
    simp only [zero_mul, sub_zero, add_zero]
    rw [if_pos hneg]
    simp only []
    omega
  · rw [if_neg (by omega)]

theorem decode_versionKey (n : Int) (h : inInt64 n) :
    decodeSeconds (versionKey n) * 1000000000 + decodeNanos (versionKey n) = n ∧
      (decodeTime (versionKey n)).UnixNano = n := by
  have hr : toInt64 (rversion (versionKey n)) = n := by
    rw [rversion_versionKey, toInt64_toUint64 n h]
  obtain ⟨e, lo, hi⟩ := tdiv_tmod_bounds n
  refine ⟨?_, ?_⟩
  · unfold decodeSeconds decodeNanos
    rw [hr]; exact e
  · unfold Time.UnixNano decodeTime decodeSeconds decodeNanos
    rw [hr, timeUnix_total _ _ lo hi, e, toInt64_toUint64 n h]

theorem firstByVersion_min (rows : List ObjectRow) (hne : rows ≠ []) :
    ∃ r0, firstByVersion rows = some r0 ∧ r0 ∈ rows ∧ ∀ r ∈ rows, r0.version ≤ r.version := by
  induction rows with
  | nil => exact absurd rfl hne
  | cons r rest ih =>
    by_cases hrest : rest = []
    · subst hrest
      exact ⟨r, by simp [firstByVersion], by simp, by simp⟩
    · obtain ⟨m, hm, hmem, hmin⟩ := ih hrest
      by_cases hlt : m.version < r.version
      · refine ⟨m, by simp [firstByVersion, hm, hlt], by simp [hmem], ?_⟩
        intro x hx
        rcases List.mem_cons.mp hx with rfl | hx
        · omega
        · exact hmin x hx
      · refine ⟨r, by simp [firstByVersion, hm, hlt], by simp, ?_⟩
        intro x hx
        rcases List.mem_cons.mp hx with rfl | hx
        · omega
        · have := hmin x hx
          omega

theorem getObject_lastModified (deps : Deps) (cli : SqlClient) (bucket key version : String)
    (r0 : ObjectRow) (hq : QueryRow cli bucket key version = .ok r0) (obj : Object)
    (err : Option Error) (hg : GetObject deps cli bucket key version = some (obj, err)) :
    obj.LastModifiedTime = decodeTime r0.version := by
  unfold GetObject at hg
  rw [hq] at hg
  simp only [] at hg
  split at hg
  · simp at hg; rw [← hg.1]
  · split at hg
    · simp at hg; rw [← hg.1]
    · split at hg
      · simp at hg
      · simp at hg; rw [← hg.1]

end Yig

namespace Yig

open Error

/-- C1: creation times are readings of the clock, that is nanosecond counts `n` (the
value of `UnixNano`) with `0 ≤ n < 2^63`. For all such `n1 < n2` the stored sort key
`MaxUint64 - uint64(n)` of `n2` is smaller than that of `n1`. When the rows stored for one
(bucket, key) carry the keys of such creation times, the ascending
`order by bucketname,name,version limit 1` query of a version-less `GetObject` returns
the row with the latest creation time, and the object `GetObject` returns carries that
time as its `LastModifiedTime`. -/
theorem versionKey_order_selects_latest :
    (∀ n1 n2 : Int, 0 ≤ n1 → n1 < n2 → n2 < 2 ^ 63 → versionKey n2 < versionKey n1) ∧
    (∀ (cli : SqlClient) (bucket key : String) (t : ObjectRow → Int),
        cli.queryRowFailure = none →
        (∀ r ∈ cli.objects, r.bucketname = bucket → r.name = key →
          0 ≤ t r ∧ t r < 2 ^ 63 ∧ r.version = versionKey (t r)) →
        (∃ r ∈ cli.objects, r.bucketname = bucket ∧ r.name = key) →
        ∃ r0 ∈ cli.objects, r0.bucketname = bucket ∧ r0.name = key ∧
          QueryRow cli bucket key "" = .ok r0 ∧
          (∀ r ∈ cli.objects, r.bucketname = bucket → r.name = key → t r ≤ t r0) ∧
          (∀ (deps : Deps) (obj : Object) (err : Option Error),
            GetObject deps cli bucket key "" = some (obj, err) →
            obj.LastModifiedTime.UnixNano = t r0)) := by
  have horder : ∀ n1 n2 : Int, 0 ≤ n1 → n1 < n2 → n2 < 2 ^ 63 →
      versionKey n2 < versionKey n1 := by
    intro n1 n2 h0 hlt hhi
    exact (versionKey_lt_iff n1 n2 ⟨by omega, by omega⟩ ⟨by omega, hhi⟩ hlt).mpr (by omega)
  refine ⟨horder, ?_⟩
  intro cli bucket key t hfail hkeys hex
  obtain ⟨rx, hrx, hb, hk⟩ := hex
  have hne : (cli.objects.filter fun r => r.bucketname = bucket ∧ r.name = key) ≠ [] := by
    intro h
    have : rx ∈ cli.objects.filter fun r => r.bucketname = bucket ∧ r.name = key := by
      simp [List.mem_filter, hrx, hb, hk]
    rw [h] at this
    simp at this
  obtain ⟨r0, hfirst, hmem, hmin⟩ := firstByVersion_min _ hne
  have hmem0 := List.mem_filter.mp hmem
  have hb0 : r0.bucketname = bucket := by have := hmem0.2; simp at this; exact this.1
  have hk0 : r0.name = key := by have := hmem0.2; simp at this; exact this.2
  have hq : QueryRow cli bucket key "" = .ok r0 := by
    unfold QueryRow
    rw [hfail]
    simp only [if_true]
    rw [hfirst]
  have hlatest : ∀ r ∈ cli.objects, r.bucketname = bucket → r.name = key → t r ≤ t r0 := by
    intro r hr hrb hrk
    have hle : r0.version ≤ r.version := hmin r (by simp [List.mem_filter, hr, hrb, hrk])
    obtain ⟨hlo, hhi, hv⟩ := hkeys r hr hrb hrk
    obtain ⟨hlo0, hhi0, hv0⟩ := hkeys r0 hmem0.1 hb0 hk0
    by_contra hcon
    have := horder (t r0) (t r) hlo0 (by omega) hhi
    omega
  refine ⟨r0, hmem0.1, hb0, hk0, hq, hlatest, ?_⟩
  intro deps obj err hg
  rw [getObject_lastModified deps cli bucket key "" r0 hq obj err hg]
  obtain ⟨hlo0, hhi0, hv0⟩ := hkeys r0 hmem0.1 hb0 hk0
  rw [hv0]
  exact (decode_versionKey (t r0) ⟨by omega, hhi0⟩).2

/-- C1, instance: keys of 1 ns and 2 ns, and the table of `sampleClient`, where the
version created at 9 ns is selected. -/
theorem versionKey_order_selects_latest_witness :
    versionKey 2 < versionKey 1 ∧
    ∃ r0 ∈ sampleClient.objects, r0.bucketname = "b" ∧ r0.name = "k" ∧
      QueryRow sampleClient "b" "k" "" = .ok r0 ∧
      (∀ r ∈ sampleClient.objects, r.bucketname = "b" → r.name = "k" →
        storedNanos r ≤ storedNanos r0) ∧
      (∀ (deps : Deps) (obj : Object) (err : Option Error),
        GetObject deps sampleClient "b" "k" "" = some (obj, err) →
        obj.LastModifiedTime.UnixNano = storedNanos r0) :=
  ⟨versionKey_order_selects_latest.1 1 2 (by decide) (by decide) (by decide),
    versionKey_order_selects_latest.2 sampleClient "b" "k" storedNanos rfl (by decide)
      (by decide)⟩

/-- C2: for every timestamp whose nanosecond count `n` fits an `int64`, decoding the
stored key as `GetObject` does gives seconds `s` and nanoseconds `ns` with
`s * 1e9 + ns = n`, and `time.Unix(s, ns)` is a time whose `UnixNano` is `n`. -/
theorem decode_stored_key_roundtrip (n : Int) (h : inInt64 n) :
    decodeSeconds (versionKey n) * 1000000000 + decodeNanos (versionKey n) = n ∧
      (timeUnix (decodeSeconds (versionKey n)) (decodeNanos (versionKey n))).UnixNano = n :=
  decode_versionKey n h

/-- C2, instance: a time in 2017 and a time one nanosecond before the epoch. -/
theorem decode_stored_key_roundtrip_witness :
    inInt64 1500000000123456789 ∧
    (decodeSeconds (versionKey 1500000000123456789) * 1000000000
        + decodeNanos (versionKey 1500000000123456789) = 1500000000123456789 ∧
      (timeUnix (decodeSeconds (versionKey 1500000000123456789))
        (decodeNanos (versionKey 1500000000123456789))).UnixNano = 1500000000123456789) :=
  ⟨by decide, decode_stored_key_roundtrip 1500000000123456789 (by decide)⟩

end Yig

namespace Yig

open Error

/-! ## Part index -/

theorem buildIndexLoop_spec (l : List (Int × Part)) :
    ∀ idx : List Int, (∀ p ∈ l, 1 ≤ p.1 ∧ p.1 ≤ idx.length) → (l.map Prod.fst).Nodup →
      ∃ out, buildIndexLoop l idx = some out ∧ out.length = idx.length ∧
        (∀ p ∈ l, out[(p.1 - 1).toNat]? = some p.2.Offset) ∧
        (∀ i : Nat, (∀ p ∈ l, (p.1 - 1).toNat ≠ i) → out[i]? = idx[i]?) := by
  induction l with
  | nil =>
    intro idx _ _
    exact ⟨idx, rfl, rfl, by simp, by simp⟩
  | cons hd rest ih =>
    intro idx hrange hnodup
    obtain ⟨k, v⟩ := hd
    have hk := hrange (k, v) (by simp)
    simp only at hk
    have hstore : sliceStore idx (k - 1) v.Offset = some (idx.set (k - 1).toNat v.Offset) := by
      unfold sliceStore
      rw [if_pos (by omega)]
    simp only [List.map_cons, List.nodup_cons] at hnodup
    obtain ⟨hnotin, hnodup1⟩ := hnodup
    have hrange1 : ∀ p ∈ rest, 1 ≤ p.1 ∧ p.1 ≤ (idx.set (k - 1).toNat v.Offset).length := by
      intro p hp
      rw [List.length_set]
      exact hrange p (by simp [hp])
    obtain ⟨out, hout, hlen, hget, hframe⟩ := ih (idx.set (k - 1).toNat v.Offset) hrange1 hnodup1
    refine ⟨out, ?_, ?_, ?_, ?_⟩
    · simp only [buildIndexLoop, hstore]
      exact hout
    · rw [hlen, List.length_set]
    · intro p hp
      rcases List.mem_cons.mp hp with rfl | hp
      · have hfr := hframe (k - 1).toNat (by
          intro q hq
          have hq1 := hrange q (by simp [hq])
          have hne : q.1 ≠ k := by
            intro h
            apply hnotin
            rw [← h]
            exact List.mem_map_of_mem Prod.fst hq
          omega)
        rw [hfr]
        exact List.getElem?_set_self (by omega)
      · exact hget p hp
    · intro i hi
      have h1 := hframe i (fun p hp => hi p (by simp [hp]))
      rw [h1]
      have hne := hi (k, v) (by simp)
      exact List.getElem?_set_ne hne

theorem mapSet_keys (m : PartMap) (k : Int) (v : Part) :
    (∀ x, x ∈ (mapSet m k v).map Prod.fst ↔ x = k ∨ x ∈ m.map Prod.fst) ∧
      ((m.map Prod.fst).Nodup → ((mapSet m k v).map Prod.fst).Nodup) := by
  induction m with
  | nil => simp [mapSet]
  | cons hd rest ih =>
    obtain ⟨k1, v1⟩ := hd
    obtain ⟨ihmem, ihnd⟩ := ih
    by_cases hk : k1 = k
    · subst hk
      simp [mapSet]
    · constructor
      · intro x
        simp only [mapSet, if_neg hk, List.map_cons, List.mem_cons, ihmem]
        tauto
      · intro hnd
        simp only [mapSet, if_neg hk, List.map_cons, List.nodup_cons] at hnd ⊢
        refine ⟨?_, ihnd hnd.2⟩
        rw [ihmem]
        intro h
        rcases h with h | h
        · exact hk h
        · exact hnd.1 h

theorem getParts_keys_nodup (bucketName objectName : String) (version : Nat)
    (cli : SqlClient) : ((getParts bucketName objectName version cli).1.map Prod.fst).Nodup := by
  unfold getParts
  split
  · simp
  · have key : ∀ (rows : List PartRow) (acc : PartMap × Option Error),
        (acc.1.map Prod.fst).Nodup →
        ((rows.foldl (fun acc r => (mapSet acc.1 r.scanned.PartNumber r.scanned, r.scanErr))
          acc).1.map Prod.fst).Nodup := by
      intro rows
      induction rows with
      | nil => intro acc h; exact h
      | cons r rest ih =>
        intro acc h
        rw [List.foldl_cons]
        exact ih _ ((mapSet_keys acc.1 r.scanned.PartNumber r.scanned).2 h)
    exact key _ _ (by simp)

theorem buildPartsIndex_dense (parts : PartMap) (N : Nat) (hN : 1 ≤ N)
    (hlen : parts.length = N) (hnodup : (parts.map Prod.fst).Nodup)
    (hkeys : ∀ k : Int, k ∈ parts.map Prod.fst ↔ 1 ≤ k ∧ k ≤ N) :
    ∃ idx : List Int, buildPartsIndex parts = some (some ⟨idx⟩) ∧ idx.length = N ∧
      (∀ (k : Int) (v : Part), (k, v) ∈ parts → idx[(k - 1).toNat]? = some v.Offset) ∧
      ((∀ (k1 k2 : Int) (v1 v2 : Part), (k1, v1) ∈ parts → (k2, v2) ∈ parts → k1 < k2 →
          v1.Offset < v2.Offset) →
        List.Pairwise (fun a b => a ≤ b) idx) := by
  have hrange : ∀ p ∈ parts, 1 ≤ p.1 ∧ p.1 ≤ (List.replicate parts.length (0 : Int)).length := by
    intro p hp
    rw [List.length_replicate, hlen]
    exact (hkeys p.1).mp (List.mem_map_of_mem Prod.fst hp)
  obtain ⟨out, hout, hl, hget, _⟩ := buildIndexLoop_spec parts _ hrange hnodup
  rw [List.length_replicate, hlen] at hl
  refine ⟨out, ?_, hl, fun k v h => hget (k, v) h, ?_⟩
  · unfold buildPartsIndex
    rw [if_pos (by omega), hout]
  · intro hmono
    rw [List.pairwise_iff_getElem]
    intro i j hi hj hij
    have hki : ((i : Int) + 1) ∈ parts.map Prod.fst := (hkeys _).mpr (by omega)
    have hkj : ((j : Int) + 1) ∈ parts.map Prod.fst := (hkeys _).mpr (by omega)
    obtain ⟨⟨k1, v1⟩, hm1, he1⟩ := List.mem_map.mp hki
    obtain ⟨⟨k2, v2⟩, hm2, he2⟩ := List.mem_map.mp hkj
    simp only at he1 he2
    have g1 := hget (k1, v1) hm1
    have g2 := hget (k2, v2) hm2
    simp only at g1 g2
    have e1 : (k1 - 1).toNat = i := by omega
    have e2 : (k2 - 1).toNat = j := by omega
    rw [e1, List.getElem?_eq_getElem hi] at g1
    rw [e2, List.getElem?_eq_getElem hj] at g2
    have o1 : out[i] = v1.Offset := Option.some.inj g1
    have o2 : out[j] = v2.Offset := Option.some.inj g2
    rw [o1, o2]
    exact le_of_lt (hmono k1 k2 v1 v2 hm1 hm2 (by omega))

/-- What `GetObject` returns once the row was read and both serialized columns parsed:
the part map of `getParts`, the index `buildPartsIndex` makes of it, and the error of
`getParts`; a panic of the index build is a panic of `GetObject`. -/
theorem getObject_parts_stage (deps : Deps) (cli : SqlClient) (bucket key version : String)
    (row : ObjectRow) (acl : Acl) (attrs : List (String × String))
    (hq : QueryRow cli bucket key version = .ok row)
    (ha : deps.unmarshalAcl row.acl = .ok acl)
    (hc : deps.unmarshalAttrs row.customattributes = .ok attrs) :
    (∀ index, buildPartsIndex (getParts bucket key row.version cli).1 = some index →
      ∃ obj, GetObject deps cli bucket key version =
          some (obj, (getParts bucket key row.version cli).2) ∧
        obj.Parts = some (getParts bucket key row.version cli).1 ∧
        obj.PartsIndex = index) ∧
    (buildPartsIndex (getParts bucket key row.version cli).1 = none →
      GetObject deps cli bucket key version = none) := by
  constructor
  · intro index hidx
    unfold GetObject
    rw [hq]
    simp only [ha, hc, hidx]
    exact ⟨_, rfl, rfl, rfl⟩
  · intro hidx
    unfold GetObject
    rw [hq]
    simp only [ha, hc, hidx]

/-- C3: once `GetObject` has read the row and parsed its serialized columns, for a part
map (the one `getParts` returns) whose part numbers are exactly `1..N`, `N ≥ 1`,
`GetObject` returns an object carrying that part map and a `PartsIndex` of length `N`
whose entry at position `k-1` is the offset of part `k`; when offsets strictly increase
with the part number the index is non-decreasing. For an empty part map `GetObject`
returns an object with a nil `PartsIndex`. The same holds of the index build itself on
every part map, whatever the order in which the map is visited. -/
theorem partsIndex_of_dense_parts :
    (∀ (deps : Deps) (cli : SqlClient) (bucket key version : String) (row : ObjectRow)
      (acl : Acl) (attrs : List (String × String)),
      QueryRow cli bucket key version = .ok row →
      deps.unmarshalAcl row.acl = .ok acl →
      deps.unmarshalAttrs row.customattributes = .ok attrs →
      (∀ N : Nat, 1 ≤ N → (getParts bucket key row.version cli).1.length = N →
        (∀ k : Int, k ∈ (getParts bucket key row.version cli).1.map Prod.fst ↔
          1 ≤ k ∧ k ≤ N) →
        ∃ (obj : Object) (idx : List Int),
          GetObject deps cli bucket key version =
            some (obj, (getParts bucket key row.version cli).2) ∧
          obj.Parts = some (getParts bucket key row.version cli).1 ∧
          obj.PartsIndex = some ⟨idx⟩ ∧ idx.length = N ∧
          (∀ (k : Int) (v : Part), (k, v) ∈ (getParts bucket key row.version cli).1 →
            idx[(k - 1).toNat]? = some v.Offset) ∧
          ((∀ (k1 k2 : Int) (v1 v2 : Part),
              (k1, v1) ∈ (getParts bucket key row.version cli).1 →
              (k2, v2) ∈ (getParts bucket key row.version cli).1 → k1 < k2 →
              v1.Offset < v2.Offset) →
            List.Pairwise (fun a b => a ≤ b) idx)) ∧
      ((getParts bucket key row.version cli).1 = [] →
        ∃ obj : Object,
          GetObject deps cli bucket key version =
            some (obj, (getParts bucket key row.version cli).2) ∧
          obj.Parts = some [] ∧ obj.PartsIndex = none)) ∧
    (∀ (parts : PartMap) (N : Nat), 1 ≤ N → parts.length = N → (parts.map Prod.fst).Nodup →
      (∀ k : Int, k ∈ parts.map Prod.fst ↔ 1 ≤ k ∧ k ≤ N) →
      ∃ idx : List Int, buildPartsIndex parts = some (some ⟨idx⟩) ∧ idx.length = N ∧
        (∀ (k : Int) (v : Part), (k, v) ∈ parts → idx[(k - 1).toNat]? = some v.Offset) ∧
        ((∀ (k1 k2 : Int) (v1 v2 : Part), (k1, v1) ∈ parts → (k2, v2) ∈ parts → k1 < k2 →
            v1.Offset < v2.Offset) →
          List.Pairwise (fun a b => a ≤ b) idx)) ∧
    buildPartsIndex [] = some none := by
  refine ⟨?_, buildPartsIndex_dense, rfl⟩
  intro deps cli bucket key version row acl attrs hq ha hc
  obtain ⟨hsome, _⟩ := getObject_parts_stage deps cli bucket key version row acl attrs hq ha hc
  constructor
  · intro N hN hlen hkeys
    obtain ⟨idx, hidx, hl, hget, hmono⟩ := buildPartsIndex_dense _ N hN hlen
      (getParts_keys_nodup bucket key row.version cli) hkeys
    obtain ⟨obj, hobj, hparts, hindex⟩ := hsome _ hidx
    exact ⟨obj, idx, hobj, hparts, hindex, hl, hget, hmono⟩
  · intro hempty
    have hidx : buildPartsIndex (getParts bucket key row.version cli).1 = some none := by
      rw [hempty]; rfl
    obtain ⟨obj, hobj, hparts, hindex⟩ := hsome _ hidx
    rw [hempty] at hparts
    exact ⟨obj, hobj, hparts, hindex⟩

end Yig

namespace Yig

/-- C3, instance: for the three healthy part rows of `multipartClient`, delivered in the
order 2, 1, 3, `GetObject` returns the index `[0, 10, 25]`; the part map `sampleParts`
gets the same index from the build. -/
theorem partsIndex_of_dense_parts_witness :
    (∃ o : Object, GetObject sampleDeps multipartClient "b" "k" "" = some (o, none) ∧
      o.PartsIndex = some ⟨[0, 10, 25]⟩) ∧
    (∃ (obj : Object) (idx : List Int),
      GetObject sampleDeps multipartClient "b" "k" "" =
        some (obj, (getParts "b" "k" (versionKey 5) multipartClient).2) ∧
      obj.Parts = some (getParts "b" "k" (versionKey 5) multipartClient).1 ∧
      obj.PartsIndex = some ⟨idx⟩ ∧ idx.length = 3 ∧
      (∀ (k : Int) (v : Part), (k, v) ∈ (getParts "b" "k" (versionKey 5) multipartClient).1 →
        idx[(k - 1).toNat]? = some v.Offset) ∧
      ((∀ (k1 k2 : Int) (v1 v2 : Part),
          (k1, v1) ∈ (getParts "b" "k" (versionKey 5) multipartClient).1 →
          (k2, v2) ∈ (getParts "b" "k" (versionKey 5) multipartClient).1 → k1 < k2 →
          v1.Offset < v2.Offset) →
        List.Pairwise (fun a b => a ≤ b) idx)) ∧
    buildPartsIndex sampleParts = some (some ⟨[0, 10, 25]⟩) :=
  ⟨⟨_, rfl, by decide⟩,
    (partsIndex_of_dense_parts.1 sampleDeps multipartClient "b" "k" ""
      (sampleRow "b" "k" (versionKey 5)) ⟨""⟩ [] rfl rfl rfl).1 3 (by decide) (by decide)
      (by
        have h : (getParts "b" "k" (versionKey 5) multipartClient).1.map Prod.fst = [2, 1, 3] := by
          decide
        intro k
        show k ∈ (getParts "b" "k" (versionKey 5) multipartClient).1.map Prod.fst ↔ _
        rw [h]
        simp
        omega),
    by decide⟩

end Yig

namespace Yig

open Error

/-! ## Bucket administration -/

/-- C4: `MakeBucket` for a name without bucket info, when the owner already has `n`
buckets: for `n ≥ 100` it returns `ErrTooManyBuckets` after the single lookup of the
owner's buckets and inserts nothing; for `n ≤ 99` it performs the insert and returns the
insert's result, dropping the owner's cached bucket list when the insert succeeded. -/
theorem makeBucket_number_limit {σ : Type} (be : Backend σ) (reqCtx : RequestContext)
    (acl : Acl) (credential : Credential) (w : World σ) (buckets : List String) (s1 : σ)
    (hnew : reqCtx.BucketInfo = none)
    (hget : be.GetUserBuckets credential.UserId false w.st = (.ok buckets, s1)) :
    (100 ≤ buckets.length →
      MakeBucket be reqCtx acl credential w =
        (some ErrTooManyBuckets, ⟨s1, w.trace ++ [Effect.GetUserBuckets credential.UserId false]⟩)) ∧
    (buckets.length ≤ 99 →
      ∀ bucket : Bucket,
        bucket = { Name := reqCtx.BucketName, CreateTime := be.Now s1,
                   OwnerId := credential.UserId, ACL := acl, Versioning := VersionDisabled,
                   CORS := ⟨[]⟩, Lifecycle := ⟨none⟩, Policy := ⟨[]⟩, Website := ⟨""⟩ } →
        (MakeBucket be reqCtx acl credential w).1 = (be.PutNewBucket bucket s1).1 ∧
        (MakeBucket be reqCtx acl credential w).2.trace =
          w.trace ++ [Effect.GetUserBuckets credential.UserId false, Effect.PutNewBucket bucket]
            ++ (if (be.PutNewBucket bucket s1).1 = none then
                  [Effect.CacheRemove CacheTable.UserTable credential.UserId]
                else [])) := by
  constructor
  · intro hn
    unfold MakeBucket
    simp only [hnew, call, hget]
    rw [if_pos (by unfold BUCKET_NUMBER_LIMIT; omega)]
  · intro hn bucket hb
    subst hb
    unfold MakeBucket
    simp only [hnew, call, hget]
    rw [if_neg (by unfold BUCKET_NUMBER_LIMIT; omega)]
    split
    · rename_i err w2 heq
      simp only [Prod.mk.injEq] at heq
      obtain ⟨h1, h2⟩ := heq
      rw [← h2]
      simp [h1]
    · rename_i w2 heq
      simp only [Prod.mk.injEq] at heq
      obtain ⟨h1, h2⟩ := heq
      rw [← h2]
      simp [h1, cacheRemove]

/-- C4, instance on the in-memory backend: with 99 buckets the creation of the 100th
succeeds, with 100 buckets the creation of the 101st fails with `ErrTooManyBuckets`. -/
theorem makeBucket_number_limit_witness :
    (MakeBucket sampleBackend ⟨"new", none⟩ ⟨"private"⟩ (sampleCredential "alice")
        (sampleWorld 99)).1 = none ∧
    MakeBucket sampleBackend ⟨"new", none⟩ ⟨"private"⟩ (sampleCredential "alice")
        (sampleWorld 100) =
      (some ErrTooManyBuckets, ⟨(sampleWorld 100).st, [Effect.GetUserBuckets "alice" false]⟩) :=
  ⟨((makeBucket_number_limit sampleBackend ⟨"new", none⟩ ⟨"private"⟩ (sampleCredential "alice")
        (sampleWorld 99) _ _ rfl rfl).2 (by decide) _ rfl).1,
    (makeBucket_number_limit sampleBackend ⟨"new", none⟩ ⟨"private"⟩ (sampleCredential "alice")
        (sampleWorld 100) _ _ rfl rfl).1 (by decide)⟩

end Yig

namespace Yig

open Error

/-! ## Listing: guard, marker resolution and page shaping -/

theorem listing_guard_iff (bucket : Bucket) (credential : Credential) :
    (if bucket.ACL.CannedAcl = "public-read" ∨ bucket.ACL.CannedAcl = "public-read-write" then
        false
      else if bucket.ACL.CannedAcl = "authenticated-read" then
        decide (credential.UserId = "")
      else decide (bucket.OwnerId ≠ credential.UserId)) = true ↔
    ((bucket.ACL.CannedAcl = "authenticated-read" ∧ credential.UserId = "") ∨
      (bucket.ACL.CannedAcl ≠ "public-read" ∧ bucket.ACL.CannedAcl ≠ "public-read-write" ∧
        bucket.ACL.CannedAcl ≠ "authenticated-read" ∧ bucket.OwnerId ≠ credential.UserId)) := by
  by_cases h1 : bucket.ACL.CannedAcl = "public-read"
  · simp [h1]
  · by_cases h2 : bucket.ACL.CannedAcl = "public-read-write"
    · simp [h2]
    · by_cases h3 : bucket.ACL.CannedAcl = "authenticated-read"
      · simp [h3]
      · simp [h1, h2, h3]

theorem listObjectsLoop_trace {σ : Type} (be : Backend σ) (request : ListObjectsRequest)
    (objs : List DatatypeObject) :
    ∀ (acc : List DatatypeObject) (err : Option Error) (w : World σ),
      ∃ ext, (listObjectsLoop be request objs acc err w).2.trace = w.trace ++ ext := by
  induction objs with
  | nil => intro acc err w; exact ⟨[], by simp [listObjectsLoop]⟩
  | cons obj rest ih =>
    intro acc err w
    unfold listObjectsLoop
    by_cases hf : request.FetchOwner = true
    · simp only [hf, if_true]
      split
      · rename_i e w1 heq
        refine ⟨[Effect.GetCredentialByUserId obj.Owner.ID], ?_⟩
        have := congrArg (fun r => r.2.trace) heq
        simpa [call] using this.symm
      · rename_i owner w1 heq
        obtain ⟨ext, hext⟩ := ih _ none w1
        refine ⟨Effect.GetCredentialByUserId obj.Owner.ID :: ext, ?_⟩
        have hw : w1.trace = w.trace ++ [Effect.GetCredentialByUserId obj.Owner.ID] := by
          have := congrArg (fun r => r.2.trace) heq
          simpa [call] using this.symm
        rw [hext, hw]
        simp
    · simp only [hf]
      exact ih _ _ _

theorem listVersionedObjectsLoop_trace {σ : Type} (be : Backend σ) (request : ListObjectsRequest)
    (objs : List VersionedObject) :
    ∀ (acc : List VersionedObject) (err : Option Error) (w : World σ),
      ∃ ext, (listVersionedObjectsLoop be request objs acc err w).2.trace = w.trace ++ ext := by
  induction objs with
  | nil => intro acc err w; exact ⟨[], by simp [listVersionedObjectsLoop]⟩
  | cons o rest ih =>
    intro acc err w
    unfold listVersionedObjectsLoop
    by_cases hf : request.FetchOwner = true
    · simp only [hf, if_true]
      split
      · rename_i e w1 heq
        refine ⟨[Effect.GetCredentialByUserId o.Owner.ID], ?_⟩
        have := congrArg (fun r => r.2.trace) heq
        simpa [call] using this.symm
      · rename_i owner w1 heq
        obtain ⟨ext, hext⟩ := ih _ none w1
        refine ⟨Effect.GetCredentialByUserId o.Owner.ID :: ext, ?_⟩
        have hw : w1.trace = w.trace ++ [Effect.GetCredentialByUserId o.Owner.ID] := by
          have := congrArg (fun r => r.2.trace) heq
          simpa [call] using this.symm
        rw [hext, hw]
        simp
    · simp only [hf]
      exact ih _ _ _

/-- The two ways `ListObjectsInternal` ends: a rejected continuation token, with the
world untouched, or one query of the object store with the resolved marker. -/
theorem listObjectsInternal_cases {σ : Type} (be : Backend σ) (bucketName : String)
    (request : ListObjectsRequest) (w : World σ) :
    (ListObjectsInternal be bucketName request w =
        ((ListObjectsInfo.zero, some ErrInvalidContinuationToken), w)) ∨
    (∃ marker, ListObjectsInternal be bucketName request w =
        call (be.ListObjects bucketName marker request.Prefix request.Delimiter request.MaxKeys)
          (Effect.ListObjects bucketName marker request.Prefix request.Delimiter request.MaxKeys)
          w) := by
  unfold ListObjectsInternal
  split
  · exact Or.inr ⟨_, rfl⟩
  · split
    · split
      · split
        · exact Or.inl rfl
        · exact Or.inr ⟨_, rfl⟩
      · exact Or.inr ⟨_, rfl⟩
    · exact Or.inr ⟨_, rfl⟩

theorem listVersionedObjectsInternal_cases {σ : Type} (be : Backend σ) (bucketName : String)
    (request : ListObjectsRequest) (w : World σ) :
    (ListVersionedObjectsInternal be bucketName request w =
        ((VersionedListObjectsInfo.zero, some ErrInvalidContinuationToken), w)) ∨
    (∃ marker verIdMarker, ListVersionedObjectsInternal be bucketName request w =
        call (be.ListVersionedObjects bucketName marker verIdMarker request.Prefix
            request.Delimiter request.MaxKeys)
          (Effect.ListVersionedObjects bucketName marker verIdMarker request.Prefix
            request.Delimiter request.MaxKeys) w) := by
  unfold ListVersionedObjectsInternal
  split
  · exact Or.inr ⟨_, _, rfl⟩
  · split
    · split
      · split
        · exact Or.inl rfl
        · exact Or.inr ⟨_, _, rfl⟩
      · exact Or.inr ⟨_, _, rfl⟩
    · exact Or.inr ⟨_, _, rfl⟩

end Yig

namespace Yig

open Error

theorem listObjects_pass_trace {σ : Type} (be : Backend σ) (bucketName : String)
    (bucket : Bucket) (credential : Credential) (request : ListObjectsRequest) (w : World σ)
    (hpass : ¬ ((bucket.ACL.CannedAcl = "authenticated-read" ∧ credential.UserId = "") ∨
      (bucket.ACL.CannedAcl ≠ "public-read" ∧ bucket.ACL.CannedAcl ≠ "public-read-write" ∧
        bucket.ACL.CannedAcl ≠ "authenticated-read" ∧ bucket.OwnerId ≠ credential.UserId))) :
    ∃ ext, (ListObjects be ⟨bucketName, some bucket⟩ credential request w).2.trace =
      (ListObjectsInternal be bucket.Name request w).2.trace ++ ext := by
  unfold ListObjects
  simp only []
  rw [if_neg (by rw [listing_guard_iff]; exact hpass)]
  rcases hI : ListObjectsInternal be bucket.Name request w with ⟨⟨info, err⟩, w1⟩
  simp only []
  obtain ⟨ext, hext⟩ := listObjectsLoop_trace be request info.Objects [] err w1
  rcases hL : listObjectsLoop be request info.Objects [] err w1 with ⟨res, w2⟩
  rw [hL] at hext
  cases res with
  | error e => exact ⟨ext, hext⟩
  | ok p => exact ⟨ext, hext⟩

theorem listObjects_pass_token_failure {σ : Type} (be : Backend σ) (bucketName : String)
    (bucket : Bucket) (credential : Credential) (request : ListObjectsRequest) (w : World σ)
    (hpass : ¬ ((bucket.ACL.CannedAcl = "authenticated-read" ∧ credential.UserId = "") ∨
      (bucket.ACL.CannedAcl ≠ "public-read" ∧ bucket.ACL.CannedAcl ≠ "public-read-write" ∧
        bucket.ACL.CannedAcl ≠ "authenticated-read" ∧ bucket.OwnerId ≠ credential.UserId)))
    (hI : ListObjectsInternal be bucket.Name request w =
      ((ListObjectsInfo.zero, some ErrInvalidContinuationToken), w)) :
    (ListObjects be ⟨bucketName, some bucket⟩ credential request w).1.2 =
        some ErrInvalidContinuationToken ∧
      (ListObjects be ⟨bucketName, some bucket⟩ credential request w).2 = w ∧
      (ListObjects be ⟨bucketName, some bucket⟩ credential request w).1.1.Objects = [] := by
  unfold ListObjects
  simp only []
  rw [if_neg (by rw [listing_guard_iff]; exact hpass)]
  rw [hI]
  simp only [ListObjectsInfo.zero, listObjectsLoop]
  by_cases he : request.EncodingType = ""
  · simp [he]
  · simp [he]

theorem listVersionedObjects_pass_trace {σ : Type} (be : Backend σ) (bucketName : String)
    (bucket : Bucket) (credential : Credential) (request : ListObjectsRequest) (w : World σ)
    (hpass : ¬ ((bucket.ACL.CannedAcl = "authenticated-read" ∧ credential.UserId = "") ∨
      (bucket.ACL.CannedAcl ≠ "public-read" ∧ bucket.ACL.CannedAcl ≠ "public-read-write" ∧
        bucket.ACL.CannedAcl ≠ "authenticated-read" ∧ bucket.OwnerId ≠ credential.UserId))) :
    ∃ ext, (ListVersionedObjects be ⟨bucketName, some bucket⟩ credential request w).2.trace =
      (ListVersionedObjectsInternal be bucket.Name request w).2.trace ++ ext := by
  unfold ListVersionedObjects
  simp only []
  rw [if_neg (by rw [listing_guard_iff]; exact hpass)]
  rcases hI : ListVersionedObjectsInternal be bucket.Name request w with ⟨⟨info, err⟩, w1⟩
  simp only []
  obtain ⟨ext, hext⟩ := listVersionedObjectsLoop_trace be request info.Objects [] err w1
  rcases hL : listVersionedObjectsLoop be request info.Objects [] err w1 with ⟨res, w2⟩
  rw [hL] at hext
  cases res with
  | error e => exact ⟨ext, hext⟩
  | ok p => exact ⟨ext, hext⟩

theorem listVersionedObjects_pass_token_failure {σ : Type} (be : Backend σ)
    (bucketName : String) (bucket : Bucket) (credential : Credential)
    (request : ListObjectsRequest) (w : World σ)
    (hpass : ¬ ((bucket.ACL.CannedAcl = "authenticated-read" ∧ credential.UserId = "") ∨
      (bucket.ACL.CannedAcl ≠ "public-read" ∧ bucket.ACL.CannedAcl ≠ "public-read-write" ∧
        bucket.ACL.CannedAcl ≠ "authenticated-read" ∧ bucket.OwnerId ≠ credential.UserId)))
    (hI : ListVersionedObjectsInternal be bucket.Name request w =
      ((VersionedListObjectsInfo.zero, some ErrInvalidContinuationToken), w)) :
    (ListVersionedObjects be ⟨bucketName, some bucket⟩ credential request w).1.2 =
        some ErrInvalidContinuationToken := by
  unfold ListVersionedObjects
  simp only []
  rw [if_neg (by rw [listing_guard_iff]; exact hpass)]
  rw [hI]
  simp only [VersionedListObjectsInfo.zero, listVersionedObjectsLoop]

theorem listObjects_rejected {σ : Type} (be : Backend σ) (bucketName : String)
    (bucket : Bucket) (credential : Credential) (request : ListObjectsRequest) (w : World σ)
    (hrej : (bucket.ACL.CannedAcl = "authenticated-read" ∧ credential.UserId = "") ∨
      (bucket.ACL.CannedAcl ≠ "public-read" ∧ bucket.ACL.CannedAcl ≠ "public-read-write" ∧
        bucket.ACL.CannedAcl ≠ "authenticated-read" ∧ bucket.OwnerId ≠ credential.UserId)) :
    ListObjects be ⟨bucketName, some bucket⟩ credential request w =
      ((ListObjectsInfo.zero, some ErrBucketAccessForbidden), w) := by
  unfold ListObjects
  simp only []
  rw [if_pos (by rw [listing_guard_iff]; exact hrej)]

theorem listVersionedObjects_rejected {σ : Type} (be : Backend σ) (bucketName : String)
    (bucket : Bucket) (credential : Credential) (request : ListObjectsRequest) (w : World σ)
    (hrej : (bucket.ACL.CannedAcl = "authenticated-read" ∧ credential.UserId = "") ∨
      (bucket.ACL.CannedAcl ≠ "public-read" ∧ bucket.ACL.CannedAcl ≠ "public-read-write" ∧
        bucket.ACL.CannedAcl ≠ "authenticated-read" ∧ bucket.OwnerId ≠ credential.UserId)) :
    ListVersionedObjects be ⟨bucketName, some bucket⟩ credential request w =
      ((VersionedListObjectsInfo.zero, some ErrBucketAccessForbidden), w) := by
  unfold ListVersionedObjects
  simp only []
  rw [if_pos (by rw [listing_guard_iff]; exact hrej)]

/-- C5: for an existing bucket and any credential, `ListObjects` and
`ListVersionedObjects` return `ErrBucketAccessForbidden` with an empty result and without
touching the store exactly when the canned ACL is `authenticated-read` and the user id is
empty, or the canned ACL is none of `public-read`, `public-read-write`,
`authenticated-read` and the caller is not the owner. -/
theorem listing_rejects_exactly {σ : Type} (be : Backend σ) (bucketName : String)
    (bucket : Bucket) (credential : Credential) (request : ListObjectsRequest) (w : World σ) :
    (ListObjects be ⟨bucketName, some bucket⟩ credential request w =
        ((ListObjectsInfo.zero, some ErrBucketAccessForbidden), w) ↔
      ((bucket.ACL.CannedAcl = "authenticated-read" ∧ credential.UserId = "") ∨
        (bucket.ACL.CannedAcl ≠ "public-read" ∧ bucket.ACL.CannedAcl ≠ "public-read-write" ∧
          bucket.ACL.CannedAcl ≠ "authenticated-read" ∧ bucket.OwnerId ≠ credential.UserId))) ∧
    (ListVersionedObjects be ⟨bucketName, some bucket⟩ credential request w =
        ((VersionedListObjectsInfo.zero, some ErrBucketAccessForbidden), w) ↔
      ((bucket.ACL.CannedAcl = "authenticated-read" ∧ credential.UserId = "") ∨
        (bucket.ACL.CannedAcl ≠ "public-read" ∧ bucket.ACL.CannedAcl ≠ "public-read-write" ∧
          bucket.ACL.CannedAcl ≠ "authenticated-read" ∧ bucket.OwnerId ≠ credential.UserId))) := by
  constructor
  · constructor
    · intro heq
      by_contra hpass
      rcases listObjectsInternal_cases be bucket.Name request w with hI | ⟨marker, hI⟩
      · have h := (listObjects_pass_token_failure be bucketName bucket credential request w
          hpass hI).1
        rw [heq] at h
        simp at h
      · obtain ⟨ext, h⟩ := listObjects_pass_trace be bucketName bucket credential request w hpass
        rw [heq, hI] at h
        simp only [call] at h
        have := congrArg List.length h
        simp at this
    · exact listObjects_rejected be bucketName bucket credential request w
  · constructor
    · intro heq
      by_contra hpass
      rcases listVersionedObjectsInternal_cases be bucket.Name request w with
        hI | ⟨marker, verIdMarker, hI⟩
      · have h := listVersionedObjects_pass_token_failure be bucketName bucket credential
          request w hpass hI
        rw [heq] at h
        simp at h
      · obtain ⟨ext, h⟩ := listVersionedObjects_pass_trace be bucketName bucket credential
          request w hpass
        rw [heq, hI] at h
        simp only [call] at h
        have := congrArg List.length h
        simp at this
    · exact listVersionedObjects_rejected be bucketName bucket credential request w

end Yig

namespace Yig

open Error

/-- C5, instances: a `public-read` bucket admits the anonymous caller, and a bucket with
the default ACL rejects the non-owner `bob`. -/
theorem listing_rejects_exactly_witness :
    ListObjects sampleBackend ⟨"b", some (sampleBucket "b" "alice" "public-read")⟩
        (sampleCredential "") sampleRequest aliceWorld ≠
      ((ListObjectsInfo.zero, some ErrBucketAccessForbidden), aliceWorld) ∧
    ListObjects sampleBackend ⟨"b", some (sampleBucket "b" "alice" "private")⟩
        (sampleCredential "bob") sampleRequest aliceWorld =
      ((ListObjectsInfo.zero, some ErrBucketAccessForbidden), aliceWorld) ∧
    ListVersionedObjects sampleBackend ⟨"b", some (sampleBucket "b" "alice" "")⟩
        (sampleCredential "bob") sampleRequest aliceWorld =
      ((VersionedListObjectsInfo.zero, some ErrBucketAccessForbidden), aliceWorld) :=
  ⟨fun h => absurd ((listing_rejects_exactly sampleBackend "b"
      (sampleBucket "b" "alice" "public-read") (sampleCredential "") sampleRequest
      aliceWorld).1.mp h) (by decide),
    (listing_rejects_exactly sampleBackend "b" (sampleBucket "b" "alice" "private")
      (sampleCredential "bob") sampleRequest aliceWorld).1.mpr (by decide),
    (listing_rejects_exactly sampleBackend "b" (sampleBucket "b" "alice" "")
      (sampleCredential "bob") sampleRequest aliceWorld).2.mpr (by decide)⟩

end Yig

namespace Yig

open Error

/-! ## Owner-only mutation -/

/-- C6 (amended): every bucket-mutating operation that receives a credential applies
"owner only" independent of the bucket ACL. For a caller who is not the owner of the
bucket found, `SetBucketCors`, `DeleteBucketCors`, `SetBucketVersioning`,
`SetBucketPolicy`, `DeleteBucketPolicy`, `SetBucketLifecycle`, `DelBucketLifecycle` and
`DeleteBucket` return `ErrBucketAccessForbidden` having made at most the bucket lookup;
`SetBucketAcl` does the same unless the canned ACL is empty and its derivation from the
policy fails, in which case that error is returned before any lookup. None of them writes
or deletes the bucket record. `SetBucketWebsite` and `DeleteBucketWebsite` receive the
bucket record and no credential: they make no ownership check and always issue the
write of the bucket record. -/
theorem mutators_owner_only {σ : Type} (be : Backend σ) (bucketName : String)
    (credential : Credential) (w : World σ) (bucket : Bucket) (s1 : σ)
    (hown : bucket.OwnerId ≠ credential.UserId) :
    (be.GetBucket bucketName false w.st = (.ok bucket, s1) →
      (∀ (policy : AccessControlPolicy) (acl : Acl),
        SetBucketAcl be bucketName policy acl credential w =
            (some ErrBucketAccessForbidden, ⟨s1, w.trace ++ [Effect.GetBucket bucketName false]⟩) ∨
          (acl.CannedAcl = "" ∧ ∃ e, be.GetCannedAclFromPolicy policy = .error e ∧
            SetBucketAcl be bucketName policy acl credential w = (some e, w))) ∧
      (∀ cors : Cors, SetBucketCors be bucketName cors credential w =
        (some ErrBucketAccessForbidden, ⟨s1, w.trace ++ [Effect.GetBucket bucketName false]⟩)) ∧
      (DeleteBucketCors be bucketName credential w =
        (some ErrBucketAccessForbidden, ⟨s1, w.trace ++ [Effect.GetBucket bucketName false]⟩)) ∧
      (∀ v : Versioning, SetBucketVersioning be bucketName v credential w =
        (some ErrBucketAccessForbidden, ⟨s1, w.trace ++ [Effect.GetBucket bucketName false]⟩)) ∧
      (∀ p : Policy, SetBucketPolicy be credential bucketName p w =
        (some ErrBucketAccessForbidden, ⟨s1, w.trace ++ [Effect.GetBucket bucketName false]⟩)) ∧
      (DeleteBucketPolicy be credential bucketName w =
        (some ErrBucketAccessForbidden, ⟨s1, w.trace ++ [Effect.GetBucket bucketName false]⟩))) ∧
    (be.GetBucket bucketName true w.st = (.ok bucket, s1) →
      (∀ lc : Lifecycle, SetBucketLifecycle be bucketName lc credential w =
        (some ErrBucketAccessForbidden, ⟨s1, w.trace ++ [Effect.GetBucket bucketName true]⟩)) ∧
      (DelBucketLifecycle be bucketName credential w =
        (some ErrBucketAccessForbidden, ⟨s1, w.trace ++ [Effect.GetBucket bucketName true]⟩))) ∧
    (DeleteBucket be ⟨bucketName, some bucket⟩ credential w = (some ErrBucketAccessForbidden, w)) ∧
    (∀ config : WebsiteConfiguration, ∃ ext,
      (SetBucketWebsite be bucket config w).2.trace =
        w.trace ++ Effect.PutBucket { bucket with Website := config } :: ext) ∧
    (∃ ext, (DeleteBucketWebsite be bucket w).2.trace =
        w.trace ++ Effect.PutBucket { bucket with Website := ⟨""⟩ } :: ext) := by
  refine ⟨?_, ?_, ?_, ?_, ?_⟩
  · intro hget
    refine ⟨?_, ?_, ?_, ?_, ?_, ?_⟩
    · intro policy acl
      by_cases hc : acl.CannedAcl = ""
      · cases hp : be.GetCannedAclFromPolicy policy with
        | error e =>
          right
          refine ⟨hc, e, rfl, ?_⟩
          unfold SetBucketAcl
          simp only [hc, if_true, hp]
        | ok a =>
          left
          unfold SetBucketAcl
          simp only [hc, if_true, hp, call, hget]
          rw [if_pos hown]
      · left
        unfold SetBucketAcl
        simp only [hc, if_false, call, hget]
        rw [if_pos hown]
    · intro cors
      unfold SetBucketCors
      simp only [call, hget]
      rw [if_pos hown]
    · unfold DeleteBucketCors
      simp only [call, hget]
      rw [if_pos hown]
    · intro v
      unfold SetBucketVersioning
      simp only [call, hget]
      rw [if_pos hown]
    · intro p
      unfold SetBucketPolicy
      simp only [call, hget]
      rw [if_pos hown]
    · unfold DeleteBucketPolicy
      simp only [call, hget]
      rw [if_pos hown]
  · intro hget
    refine ⟨?_, ?_⟩
    · intro lc
      unfold SetBucketLifecycle
      simp only [call, hget]
      rw [if_pos hown]
    · unfold DelBucketLifecycle
      simp only [call, hget]
      rw [if_pos hown]
  · unfold DeleteBucket
    simp only []
    rw [if_pos hown]
  · intro config
    unfold SetBucketWebsite
    simp only [call]
    split
    · rename_i err w1 heq
      simp only [Prod.mk.injEq] at heq
      exact ⟨[], by rw [← heq.2]⟩
    · rename_i w1 heq
      simp only [Prod.mk.injEq] at heq
      exact ⟨[Effect.CacheRemove CacheTable.BucketTable bucket.Name], by
        rw [← heq.2]; simp [cacheRemove]⟩
  · unfold DeleteBucketWebsite
    simp only [call]
    split
    · rename_i err w1 heq
      simp only [Prod.mk.injEq] at heq
      exact ⟨[], by rw [← heq.2]⟩
    · rename_i w1 heq
      simp only [Prod.mk.injEq] at heq
      exact ⟨[Effect.CacheRemove CacheTable.BucketTable bucket.Name], by
        rw [← heq.2]; simp [cacheRemove]⟩

/-- C6, instance: `bob` is refused every credentialed mutation of `alice`'s bucket `b`
on the in-memory backend. -/
theorem mutators_owner_only_witness :
    SetBucketCors sampleBackend "b" ⟨["rule"]⟩ (sampleCredential "bob") aliceWorld =
        (some ErrBucketAccessForbidden, ⟨aliceWorld.st, [Effect.GetBucket "b" false]⟩) ∧
    SetBucketLifecycle sampleBackend "b" ⟨some ["rule"]⟩ (sampleCredential "bob") aliceWorld =
        (some ErrBucketAccessForbidden, ⟨aliceWorld.st, [Effect.GetBucket "b" true]⟩) ∧
    DeleteBucket sampleBackend ⟨"b", some (sampleBucket "b" "alice" "private")⟩
        (sampleCredential "bob") aliceWorld = (some ErrBucketAccessForbidden, aliceWorld) :=
  ⟨((mutators_owner_only sampleBackend "b" (sampleCredential "bob") aliceWorld
        (sampleBucket "b" "alice" "private") aliceWorld.st (by decide)).1 rfl).2.1 ⟨["rule"]⟩,
    ((mutators_owner_only sampleBackend "b" (sampleCredential "bob") aliceWorld
        (sampleBucket "b" "alice" "private") aliceWorld.st (by decide)).2.1 rfl).1 ⟨some ["rule"]⟩,
    (mutators_owner_only sampleBackend "b" (sampleCredential "bob") aliceWorld
        (sampleBucket "b" "alice" "private") aliceWorld.st (by decide)).2.2.1⟩

/-- C6, the claim as stated fails for the website operations: on `alice`'s bucket,
whoever the caller is, `SetBucketWebsite` and `DeleteBucketWebsite` return nil after
writing the bucket record and dropping its cache entry. -/
theorem website_mutators_unchecked_counterexample :
    (sampleBucket "b" "alice" "private").OwnerId = "alice" ∧
    (SetBucketWebsite sampleBackend (sampleBucket "b" "alice" "private") ⟨"index.html"⟩
        aliceWorld).1 = none ∧
    (SetBucketWebsite sampleBackend (sampleBucket "b" "alice" "private") ⟨"index.html"⟩
        aliceWorld).2.trace =
      [Effect.PutBucket { sampleBucket "b" "alice" "private" with Website := ⟨"index.html"⟩ },
        Effect.CacheRemove CacheTable.BucketTable "b"] ∧
    (SetBucketWebsite sampleBackend (sampleBucket "b" "alice" "private") ⟨"index.html"⟩
        aliceWorld).2.st =
      [{ sampleBucket "b" "alice" "private" with Website := ⟨"index.html"⟩ }] ∧
    (DeleteBucketWebsite sampleBackend (sampleBucket "b" "alice" "private") aliceWorld).1 = none ∧
    (DeleteBucketWebsite sampleBackend (sampleBucket "b" "alice" "private") aliceWorld).2.trace =
      [Effect.PutBucket (sampleBucket "b" "alice" "private"),
        Effect.CacheRemove CacheTable.BucketTable "b"] := by
  decide

end Yig

namespace Yig

open Error

/-! ## Transactional put -/

/-- C7, evaluation at the failing input: with its own transaction (`tx = nil`), a
multipart object with one part, a failing insert of the object row and a succeeding
insert of the part row, `PutObject` returns nil and commits, never rolling back, and the
part row stays written without its object row. On the same driver an object without
parts gets the insert's error back and the transaction is rolled back. -/
theorem putObject_loses_object_insert_error :
    (PutObject dupSql sampleObject none ⟨[], []⟩).1 = none ∧
    (PutObject dupSql sampleObject none ⟨[], []⟩).2.log =
      [SqlEvent.Begin, SqlEvent.Exec (Stmt.InsertObject sampleObject),
        SqlEvent.Exec (Stmt.InsertPart (samplePart 1 0) "b" "k" "18446744073709551610"),
        SqlEvent.Commit] ∧
    (PutObject dupSql sampleObject none ⟨[], []⟩).2.st =
      [Stmt.InsertPart (samplePart 1 0) "b" "k" "18446744073709551610"] ∧
    (PutObject dupSql { sampleObject with Parts := none } none ⟨[], []⟩).1 =
      some (Other "duplicate entry") ∧
    (PutObject dupSql { sampleObject with Parts := none } none ⟨[], []⟩).2.log =
      [SqlEvent.Begin, SqlEvent.Exec (Stmt.InsertObject { sampleObject with Parts := none }),
        SqlEvent.Rollback] := by
  decide

end Yig

namespace Yig

open Error

/-! ## Next markers -/

theorem queryEscape_empty : QueryEscape "" = "" := by decide

/-- The `NextMarker` of `ListObjects` for a caller who passes the guard, in terms of the
page `ListObjectsInternal` handed back: the next key is taken from the page only when the
page is truncated and has a non-empty next key, it is encrypted for protocol version 2,
and it is URL-escaped on the normal exit when the request asks for an encoding. -/
theorem listObjects_nextMarker_shape {σ : Type} (be : Backend σ) (bucketName : String)
    (bucket : Bucket) (credential : Credential) (request : ListObjectsRequest) (w : World σ)
    (hpass : ¬ ((bucket.ACL.CannedAcl = "authenticated-read" ∧ credential.UserId = "") ∨
      (bucket.ACL.CannedAcl ≠ "public-read" ∧ bucket.ACL.CannedAcl ≠ "public-read-write" ∧
        bucket.ACL.CannedAcl ≠ "authenticated-read" ∧ bucket.OwnerId ≠ credential.UserId)))
    (nextKey token : String)
    (hkey : nextKey =
      if (ListObjectsInternal be bucket.Name request w).1.1.IsTruncated = true ∧
          (ListObjectsInternal be bucket.Name request w).1.1.NextMarker ≠ "" then
        (ListObjectsInternal be bucket.Name request w).1.1.NextMarker
      else "")
    (htoken : token = if request.Version = 2 then be.Encrypt nextKey else nextKey) :
    ((ListObjects be ⟨bucketName, some bucket⟩ credential request w).1.1.NextMarker = token ∨
      (ListObjects be ⟨bucketName, some bucket⟩ credential request w).1.1.NextMarker =
        QueryEscape token) ∧
    (request.EncodingType = "" →
      (ListObjects be ⟨bucketName, some bucket⟩ credential request w).1.1.NextMarker = token) := by
  subst htoken
  subst hkey
  unfold ListObjects
  simp only []
  rw [if_neg (by rw [listing_guard_iff]; exact hpass)]
  rcases hI : ListObjectsInternal be bucket.Name request w with ⟨⟨info, err⟩, w1⟩
  simp only []
  rcases hL : listObjectsLoop be request info.Objects [] err w1 with ⟨res, w2⟩
  cases res with
  | error e =>
    simp only []
    by_cases hc : info.IsTruncated = true ∧ info.NextMarker ≠ ""
    · by_cases h2 : request.Version = 2
      · simp [hc, h2]
      · simp [hc, h2]
    · by_cases h2 : request.Version = 2
      · simp [hc, h2, ListObjectsInfo.zero]
      · simp [hc, h2, ListObjectsInfo.zero]
  | ok p =>
    obtain ⟨objects, err1⟩ := p
    simp only []
    by_cases hc : info.IsTruncated = true ∧ info.NextMarker ≠ ""
    · by_cases h2 : request.Version = 2
      · by_cases he : request.EncodingType = ""
        · simp [hc, h2, he]
        · simp [hc, h2, he]
      · by_cases he : request.EncodingType = ""
        · simp [hc, h2, he]
        · simp [hc, h2, he]
    · by_cases h2 : request.Version = 2
      · by_cases he : request.EncodingType = ""
        · simp [hc, h2, he, ListObjectsInfo.zero]
        · simp [hc, h2, he, ListObjectsInfo.zero]
      · by_cases he : request.EncodingType = ""
        · simp [hc, h2, he, ListObjectsInfo.zero]
        · simp [hc, h2, he, ListObjectsInfo.zero]

theorem listVersionedObjects_nextMarker_empty {σ : Type} (be : Backend σ) (bucketName : String)
    (bucket : Bucket) (credential : Credential) (request : ListObjectsRequest) (w : World σ)
    (hc : ¬ ((ListVersionedObjectsInternal be bucket.Name request w).1.1.IsTruncated = true ∧
      (ListVersionedObjectsInternal be bucket.Name request w).1.1.NextKeyMarker ≠ "")) :
    (ListVersionedObjects be ⟨bucketName, some bucket⟩ credential request w).1.1.NextKeyMarker = ""
      ∧ (ListVersionedObjects be ⟨bucketName, some bucket⟩ credential request
          w).1.1.NextVersionIdMarker = "" := by
  by_cases hrej : ((bucket.ACL.CannedAcl = "authenticated-read" ∧ credential.UserId = "") ∨
      (bucket.ACL.CannedAcl ≠ "public-read" ∧ bucket.ACL.CannedAcl ≠ "public-read-write" ∧
        bucket.ACL.CannedAcl ≠ "authenticated-read" ∧ bucket.OwnerId ≠ credential.UserId))
  · rw [listVersionedObjects_rejected be bucketName bucket credential request w hrej]
    exact ⟨rfl, rfl⟩
  · unfold ListVersionedObjects
    simp only []
    rw [if_neg (by rw [listing_guard_iff]; exact hrej)]
    rcases hI : ListVersionedObjectsInternal be bucket.Name request w with ⟨⟨info, err⟩, w1⟩
    rw [hI] at hc
    simp only [] at hc
    simp only []
    rw [if_neg hc]
    rcases hL : listVersionedObjectsLoop be request info.Objects [] err w1 with ⟨res, w2⟩
    cases res with
    | error e => exact ⟨rfl, rfl⟩
    | ok p =>
      obtain ⟨objects, err1⟩ := p
      simp only []
      by_cases he : request.EncodingType = ""
      · simp [he, VersionedListObjectsInfo.zero]
      · simp [he, VersionedListObjectsInfo.zero, queryEscape_empty]

/-- C8 (amended): for every request, with or without URL encoding, the page meant is
the one `ListObjectsInternal` / `ListVersionedObjectsInternal` handed to the listing:
the answer of the single store query, or the zero page when a continuation token was
refused and no query was made. `ListObjects` under protocol version 1 (and every version
other than 2) returns a non-empty `NextMarker` only when that page has
`IsTruncated = true` and a non-empty next key, and `ListVersionedObjects` returns a
non-empty `NextKeyMarker` or `NextVersionIdMarker` only then. Under version 2
`ListObjects` selects the next key under the same condition and the empty string
otherwise, and the token it returns is `util.Encrypt` of the selected key in every case
(URL-escaped when asked): on a page that is not truncated the token is the encryption of
the empty string, so a non-empty token means a truncated page with a non-empty next key
or a cipher that does not map the empty string to the empty string. -/
theorem next_marker_only_when_truncated {σ : Type} (be : Backend σ) (reqCtx : RequestContext)
    (credential : Credential) (request : ListObjectsRequest) (w : World σ) :
    (∀ bucket, reqCtx.BucketInfo = some bucket →
      ((ListObjectsInternal be bucket.Name request w =
            ((ListObjectsInfo.zero, some ErrInvalidContinuationToken), w)) ∨
        (∃ marker, ListObjectsInternal be bucket.Name request w =
          call (be.ListObjects bucket.Name marker request.Prefix request.Delimiter
              request.MaxKeys)
            (Effect.ListObjects bucket.Name marker request.Prefix request.Delimiter
              request.MaxKeys) w)) ∧
      ((ListVersionedObjectsInternal be bucket.Name request w =
            ((VersionedListObjectsInfo.zero, some ErrInvalidContinuationToken), w)) ∨
        (∃ marker verIdMarker, ListVersionedObjectsInternal be bucket.Name request w =
          call (be.ListVersionedObjects bucket.Name marker verIdMarker request.Prefix
              request.Delimiter request.MaxKeys)
            (Effect.ListVersionedObjects bucket.Name marker verIdMarker request.Prefix
              request.Delimiter request.MaxKeys) w))) ∧
    (request.Version ≠ 2 →
      (ListObjects be reqCtx credential request w).1.1.NextMarker ≠ "" →
      ∃ bucket, reqCtx.BucketInfo = some bucket ∧
        (ListObjectsInternal be bucket.Name request w).1.1.IsTruncated = true ∧
        (ListObjectsInternal be bucket.Name request w).1.1.NextMarker ≠ "") ∧
    (request.Version = 2 → ∀ bucket, reqCtx.BucketInfo = some bucket →
      ¬ ((bucket.ACL.CannedAcl = "authenticated-read" ∧ credential.UserId = "") ∨
        (bucket.ACL.CannedAcl ≠ "public-read" ∧ bucket.ACL.CannedAcl ≠ "public-read-write" ∧
          bucket.ACL.CannedAcl ≠ "authenticated-read" ∧
          bucket.OwnerId ≠ credential.UserId)) →
      ((ListObjectsInternal be bucket.Name request w).1.1.IsTruncated = true ∧
          (ListObjectsInternal be bucket.Name request w).1.1.NextMarker ≠ "" →
        (ListObjects be reqCtx credential request w).1.1.NextMarker =
            be.Encrypt (ListObjectsInternal be bucket.Name request w).1.1.NextMarker ∨
          (ListObjects be reqCtx credential request w).1.1.NextMarker =
            QueryEscape
              (be.Encrypt (ListObjectsInternal be bucket.Name request w).1.1.NextMarker)) ∧
      (¬ ((ListObjectsInternal be bucket.Name request w).1.1.IsTruncated = true ∧
          (ListObjectsInternal be bucket.Name request w).1.1.NextMarker ≠ "") →
        (ListObjects be reqCtx credential request w).1.1.NextMarker = be.Encrypt "" ∨
          (ListObjects be reqCtx credential request w).1.1.NextMarker =
            QueryEscape (be.Encrypt ""))) ∧
    (request.Version = 2 →
      (ListObjects be reqCtx credential request w).1.1.NextMarker ≠ "" →
      ∃ bucket, reqCtx.BucketInfo = some bucket ∧
        (((ListObjectsInternal be bucket.Name request w).1.1.IsTruncated = true ∧
            (ListObjectsInternal be bucket.Name request w).1.1.NextMarker ≠ "") ∨
          be.Encrypt "" ≠ "")) ∧
    ((ListVersionedObjects be reqCtx credential request w).1.1.NextKeyMarker ≠ "" ∨
        (ListVersionedObjects be reqCtx credential request w).1.1.NextVersionIdMarker ≠ "" →
      ∃ bucket, reqCtx.BucketInfo = some bucket ∧
        (ListVersionedObjectsInternal be bucket.Name request w).1.1.IsTruncated = true ∧
        (ListVersionedObjectsInternal be bucket.Name request w).1.1.NextKeyMarker ≠ "") := by
  obtain ⟨bucketName, info⟩ := reqCtx
  cases info with
  | none =>
    refine ⟨fun bucket hb => by simp at hb, fun _ h => absurd rfl h,
      fun _ bucket hb => by simp at hb, fun _ h => absurd rfl h, ?_⟩
    intro h
    rcases h with h | h <;> exact absurd rfl h
  | some bucket =>
    have hshape := listObjects_nextMarker_shape be bucketName bucket credential request w
    refine ⟨?_, ?_, ?_, ?_, ?_⟩
    · intro b hb
      simp only [Option.some.injEq] at hb
      subst hb
      exact ⟨listObjectsInternal_cases be bucket.Name request w,
        listVersionedObjectsInternal_cases be bucket.Name request w⟩
    · intro h2 hne
      refine ⟨bucket, rfl, ?_⟩
      by_contra hc
      by_cases hrej : ((bucket.ACL.CannedAcl = "authenticated-read" ∧ credential.UserId = "") ∨
          (bucket.ACL.CannedAcl ≠ "public-read" ∧ bucket.ACL.CannedAcl ≠ "public-read-write" ∧
            bucket.ACL.CannedAcl ≠ "authenticated-read" ∧ bucket.OwnerId ≠ credential.UserId))
      · rw [listObjects_rejected be bucketName bucket credential request w hrej] at hne
        exact hne rfl
      · have := (hshape hrej "" "" (by rw [if_neg hc]) (by rw [if_neg h2])).1
        rw [queryEscape_empty] at this
        rcases this with h | h <;> exact hne h
    · intro h2 b hb hpass
      simp only [Option.some.injEq] at hb
      subst hb
      constructor
      · intro hc
        exact (hshape hpass _ _ (by rw [if_pos hc]) (by rw [if_pos h2])).1
      · intro hc
        exact (hshape hpass _ _ (by rw [if_neg hc]) (by rw [if_pos h2])).1
    · intro h2 hne
      refine ⟨bucket, rfl, ?_⟩
      by_contra hcon
      rw [not_or, not_not] at hcon
      obtain ⟨hc, henc⟩ := hcon
      by_cases hrej : ((bucket.ACL.CannedAcl = "authenticated-read" ∧ credential.UserId = "") ∨
          (bucket.ACL.CannedAcl ≠ "public-read" ∧ bucket.ACL.CannedAcl ≠ "public-read-write" ∧
            bucket.ACL.CannedAcl ≠ "authenticated-read" ∧ bucket.OwnerId ≠ credential.UserId))
      · rw [listObjects_rejected be bucketName bucket credential request w hrej] at hne
        exact hne rfl
      · have := (hshape hrej "" "" (by rw [if_neg hc]) (by rw [if_pos h2, henc])).1
        rw [queryEscape_empty] at this
        rcases this with h | h <;> exact hne h
    · intro h
      refine ⟨bucket, rfl, ?_⟩
      by_contra hc
      have he := listVersionedObjects_nextMarker_empty be bucketName bucket credential
        request w hc
      rcases h with h | h
      · exact absurd he.1 h
      · exact absurd he.2 h

/-- C8, instance: a version-1 listing on the in-memory backend returns the next marker
`z`, and the page it received is truncated with a non-empty next key. -/
theorem next_marker_only_when_truncated_witness :
    (ListObjects sampleBackend ⟨"b", some (sampleBucket "b" "alice" "public-read")⟩
      (sampleCredential "") sampleRequest aliceWorld).1.1.NextMarker = "z" ∧
    ∃ bucket,
      (⟨"b", some (sampleBucket "b" "alice" "public-read")⟩ : RequestContext).BucketInfo
        = some bucket ∧
      (ListObjectsInternal sampleBackend bucket.Name sampleRequest aliceWorld).1.1.IsTruncated
        = true ∧
      (ListObjectsInternal sampleBackend bucket.Name sampleRequest aliceWorld).1.1.NextMarker
        ≠ "" :=
  ⟨by decide,
    (next_marker_only_when_truncated sampleBackend
      ⟨"b", some (sampleBucket "b" "alice" "public-read")⟩ (sampleCredential "")
      sampleRequest aliceWorld).2.1 (by decide) (by decide)⟩

/-- C8, the claim as stated fails under protocol version 2: with a store that answers
with an untruncated page without next key and a token cipher that turns the empty key
into `#`, the listing returns the non-empty continuation token `#`. -/
theorem next_token_on_last_page_counterexample :
    (sampleRequestV2 "").Version = 2 ∧
    (padBackend.ListObjects "b" "s" "" "" 1000 aliceWorld.st).1.1.IsTruncated = false ∧
    (padBackend.ListObjects "b" "s" "" "" 1000 aliceWorld.st).1.1.NextMarker = "" ∧
    (ListObjects padBackend ⟨"b", some (sampleBucket "b" "alice" "public-read")⟩
      (sampleCredential "") (sampleRequestV2 "") aliceWorld).2.trace =
        [Effect.ListObjects "b" "s" "" "" 1000] ∧
    (ListObjects padBackend ⟨"b", some (sampleBucket "b" "alice" "public-read")⟩
      (sampleCredential "") (sampleRequestV2 "") aliceWorld).1.1.IsTruncated = false ∧
    (ListObjects padBackend ⟨"b", some (sampleBucket "b" "alice" "public-read")⟩
      (sampleCredential "") (sampleRequestV2 "") aliceWorld).1.1.NextMarker = "#" := by
  decide

end Yig

namespace Yig

open Error

/-! ## Version identifier -/

theorem getObject_versionId (deps : Deps) (cli : SqlClient) (bucket key version : String)
    (obj : Object) (hg : GetObject deps cli bucket key version = some (obj, none)) :
    obj.VersionId = versionId deps := by
  unfold GetObject at hg
  split at hg
  · split at hg <;> simp at hg
  · simp only [] at hg
    split at hg
    · simp at hg
    · split at hg
      · simp at hg
      · split at hg
        · simp at hg
        · simp at hg; rw [← hg.1]

/-- C9, evaluation of the code: whatever row was read, the `VersionId` of an object that
`GetObject` returns without error is the hex encoding of the encryption of the decimal
string of `MaxUint64 - 0`; in the table of `sampleClient` the two versions of key `k`,
stored under different keys and decoded to different times, get the same identifier. -/
theorem getObject_versionId_ignores_stored_key :
    (∀ (deps : Deps) (cli : SqlClient) (bucket key version : String) (obj : Object),
      GetObject deps cli bucket key version = some (obj, none) →
      obj.VersionId = hexEncodeToString (deps.xxteaEncrypt "18446744073709551615")) ∧
    versionKey 5 ≠ versionKey 9 ∧
    (∃ o1 o2 : Object,
      GetObject sampleDeps sampleClient "b" "k" (toString (versionKey 5)) = some (o1, none) ∧
      GetObject sampleDeps sampleClient "b" "k" (toString (versionKey 9)) = some (o2, none) ∧
      o1.LastModifiedTime = ⟨0, 5⟩ ∧ o2.LastModifiedTime = ⟨0, 9⟩ ∧
      o1.VersionId = o2.VersionId) := by
  refine ⟨?_, by decide, ?_⟩
  · intro deps cli bucket key version obj hg
    rw [getObject_versionId deps cli bucket key version obj hg]
    have : toString (subU64 MaxUint64 0) = "18446744073709551615" := by decide
    simp only [versionId, this]
  · refine ⟨_, _, rfl, rfl, by decide, by decide, by decide⟩

end Yig

namespace Yig

/-- C9, instance: the version-less read of key `k` in `sampleClient`. -/
theorem getObject_versionId_ignores_stored_key_witness :
    ∃ o : Object, GetObject sampleDeps sampleClient "b" "k" "" = some (o, none) ∧
      o.VersionId = hexEncodeToString (sampleDeps.xxteaEncrypt "18446744073709551615") :=
  ⟨_, rfl, getObject_versionId_ignores_stored_key.1 sampleDeps sampleClient "b" "k" "" _ rfl⟩

end Yig

namespace Yig

open Error

/-! ## Continuation tokens -/

/-- C10: for a v2 request (not the versioned protocol) of a caller who passes the
listing guard: a non-empty continuation token that fails to decrypt makes `ListObjects`
return `ErrInvalidContinuationToken` with no objects and the backend untouched (no
call is made at all); a token that decrypts to `m` makes the first call the store query
with marker `m`; without a token the first call is the store query with marker
`StartAfter`. -/
theorem v2_continuation_token {σ : Type} (be : Backend σ) (bucketName : String)
    (bucket : Bucket) (credential : Credential) (request : ListObjectsRequest) (w : World σ)
    (hpass : ¬ ((bucket.ACL.CannedAcl = "authenticated-read" ∧ credential.UserId = "") ∨
      (bucket.ACL.CannedAcl ≠ "public-read" ∧ bucket.ACL.CannedAcl ≠ "public-read-write" ∧
        bucket.ACL.CannedAcl ≠ "authenticated-read" ∧ bucket.OwnerId ≠ credential.UserId)))
    (hv : request.Versioned = false) (h2 : request.Version = 2) :
    (∀ e, request.ContinuationToken ≠ "" →
      be.DecryptToString request.ContinuationToken = .error e →
      (ListObjects be ⟨bucketName, some bucket⟩ credential request w).1.2 =
          some ErrInvalidContinuationToken ∧
        (ListObjects be ⟨bucketName, some bucket⟩ credential request w).2 = w ∧
        (ListObjects be ⟨bucketName, some bucket⟩ credential request w).1.1.Objects = []) ∧
    (∀ m, request.ContinuationToken ≠ "" →
      be.DecryptToString request.ContinuationToken = .ok m →
      ∃ ext, (ListObjects be ⟨bucketName, some bucket⟩ credential request w).2.trace =
        w.trace ++ Effect.ListObjects bucket.Name m request.Prefix request.Delimiter
          request.MaxKeys :: ext) ∧
    (request.ContinuationToken = "" →
      ∃ ext, (ListObjects be ⟨bucketName, some bucket⟩ credential request w).2.trace =
        w.trace ++ Effect.ListObjects bucket.Name request.StartAfter request.Prefix
          request.Delimiter request.MaxKeys :: ext) := by
  refine ⟨?_, ?_, ?_⟩
  · intro e htok hdec
    have hI : ListObjectsInternal be bucket.Name request w =
        ((ListObjectsInfo.zero, some ErrInvalidContinuationToken), w) := by
      unfold ListObjectsInternal
      simp [hv, h2, htok, hdec]
    exact listObjects_pass_token_failure be bucketName bucket credential request w hpass hI
  · intro m htok hdec
    have hI : ListObjectsInternal be bucket.Name request w =
        call (be.ListObjects bucket.Name m request.Prefix request.Delimiter request.MaxKeys)
          (Effect.ListObjects bucket.Name m request.Prefix request.Delimiter request.MaxKeys)
          w := by
      unfold ListObjectsInternal
      simp [hv, h2, htok, hdec]
    obtain ⟨ext, h⟩ := listObjects_pass_trace be bucketName bucket credential request w hpass
    rw [hI] at h
    exact ⟨ext, by rw [h]; simp [call]⟩
  · intro htok
    have hI : ListObjectsInternal be bucket.Name request w =
        call (be.ListObjects bucket.Name request.StartAfter request.Prefix request.Delimiter
            request.MaxKeys)
          (Effect.ListObjects bucket.Name request.StartAfter request.Prefix request.Delimiter
            request.MaxKeys) w := by
      unfold ListObjectsInternal
      simp [hv, h2, htok]
    obtain ⟨ext, h⟩ := listObjects_pass_trace be bucketName bucket credential request w hpass
    rw [hI] at h
    exact ⟨ext, by rw [h]; simp [call]⟩

/-- C10, instance on the in-memory backend, whose tokens start with `#`: the tampered
token `k` is refused without a query, and the token `#k` queries the store from `k`. -/
theorem v2_continuation_token_witness :
    ((ListObjects sampleBackend ⟨"b", some (sampleBucket "b" "alice" "public-read")⟩
        (sampleCredential "") (sampleRequestV2 "k") aliceWorld).1.2 =
          some ErrInvalidContinuationToken ∧
      (ListObjects sampleBackend ⟨"b", some (sampleBucket "b" "alice" "public-read")⟩
        (sampleCredential "") (sampleRequestV2 "k") aliceWorld).2 = aliceWorld ∧
      (ListObjects sampleBackend ⟨"b", some (sampleBucket "b" "alice" "public-read")⟩
        (sampleCredential "") (sampleRequestV2 "k") aliceWorld).1.1.Objects = []) ∧
    (∃ ext, (ListObjects sampleBackend ⟨"b", some (sampleBucket "b" "alice" "public-read")⟩
        (sampleCredential "") (sampleRequestV2 "#k") aliceWorld).2.trace =
      aliceWorld.trace ++ Effect.ListObjects "b" "k" "" "" 1000 :: ext) ∧
    (∃ ext, (ListObjects sampleBackend ⟨"b", some (sampleBucket "b" "alice" "public-read")⟩
        (sampleCredential "") (sampleRequestV2 "") aliceWorld).2.trace =
      aliceWorld.trace ++ Effect.ListObjects "b" "s" "" "" 1000 :: ext) :=
  ⟨(v2_continuation_token sampleBackend "b" (sampleBucket "b" "alice" "public-read")
      (sampleCredential "") (sampleRequestV2 "k") aliceWorld (by decide) rfl rfl).1
      (Other "malformed token") (by decide) rfl,
    (v2_continuation_token sampleBackend "b" (sampleBucket "b" "alice" "public-read")
      (sampleCredential "") (sampleRequestV2 "#k") aliceWorld (by decide) rfl rfl).2.1
      "k" (by decide) rfl,
    (v2_continuation_token sampleBackend "b" (sampleBucket "b" "alice" "public-read")
      (sampleCredential "") (sampleRequestV2 "") aliceWorld (by decide) rfl rfl).2.2 rfl⟩

end Yig

namespace Yig

open Error

/-! ## Bucket deletion -/

/-- C11: for an existing bucket and its owner, when the emptiness check reports the
bucket non-empty `DeleteBucket` returns `ErrBucketNotEmpty`, and when the check fails it
returns the check's error; in both cases the emptiness check is the only call made, so
the record is not deleted and no cache entry is dropped. Whenever `DeleteBucket` issues
the delete of a bucket record, the emptiness check has reported the bucket empty. -/
theorem deleteBucket_only_when_empty {σ : Type} (be : Backend σ) (reqCtx : RequestContext)
    (credential : Credential) (w : World σ) (bucket : Bucket)
    (hb : reqCtx.BucketInfo = some bucket) (hown : bucket.OwnerId = credential.UserId) :
    (∀ s1, be.IsEmptyBucket reqCtx.BucketName w.st = (.ok false, s1) →
      DeleteBucket be reqCtx credential w =
        (some ErrBucketNotEmpty, ⟨s1, w.trace ++ [Effect.IsEmptyBucket reqCtx.BucketName]⟩)) ∧
    (∀ e s1, be.IsEmptyBucket reqCtx.BucketName w.st = (.error e, s1) →
      DeleteBucket be reqCtx credential w =
        (some e, ⟨s1, w.trace ++ [Effect.IsEmptyBucket reqCtx.BucketName]⟩)) ∧
    (∀ b ext, (DeleteBucket be reqCtx credential w).2.trace = w.trace ++ ext →
      Effect.DeleteBucket b ∈ ext →
      (be.IsEmptyBucket reqCtx.BucketName w.st).1 = .ok true) := by
  refine ⟨?_, ?_, ?_⟩
  · intro s1 he
    unfold DeleteBucket
    simp only [hb, call, he]
    rw [if_neg (by simpa using hown)]
    simp
  · intro e s1 he
    unfold DeleteBucket
    simp only [hb, call, he]
    rw [if_neg (by simpa using hown)]
  · intro b ext htr hmem
    unfold DeleteBucket at htr
    simp only [hb, call] at htr
    rw [if_neg (by simpa using hown)] at htr
    rcases he : be.IsEmptyBucket reqCtx.BucketName w.st with ⟨r, s1⟩
    rw [he] at htr
    cases r with
    | error e =>
      simp only [] at htr
      have : ext = [Effect.IsEmptyBucket reqCtx.BucketName] := by
        simpa using htr.symm
      rw [this] at hmem
      simp at hmem
    | ok isEmpty =>
      cases isEmpty with
      | true => rfl
      | false =>
        simp at htr
        rw [← htr] at hmem
        simp at hmem

/-- C11, instance: `alice` cannot delete her bucket `b` while the emptiness check reports
objects, nor while the check fails; only the check is called. -/
theorem deleteBucket_only_when_empty_witness :
    DeleteBucket nonEmptyBackend ⟨"b", some (sampleBucket "b" "alice" "private")⟩
        (sampleCredential "alice") aliceWorld =
      (some ErrBucketNotEmpty, ⟨aliceWorld.st, [Effect.IsEmptyBucket "b"]⟩) ∧
    DeleteBucket brokenEmptinessBackend ⟨"b", some (sampleBucket "b" "alice" "private")⟩
        (sampleCredential "alice") aliceWorld =
      (some (Other "connection lost"), ⟨aliceWorld.st, [Effect.IsEmptyBucket "b"]⟩) :=
  ⟨(deleteBucket_only_when_empty nonEmptyBackend
      ⟨"b", some (sampleBucket "b" "alice" "private")⟩ (sampleCredential "alice") aliceWorld
      (sampleBucket "b" "alice" "private") rfl rfl).1 aliceWorld.st rfl,
    (deleteBucket_only_when_empty brokenEmptinessBackend
      ⟨"b", some (sampleBucket "b" "alice" "private")⟩ (sampleCredential "alice") aliceWorld
      (sampleBucket "b" "alice" "private") rfl rfl).2.1 (Other "connection lost")
      aliceWorld.st rfl⟩

end Yig

namespace Yig

open Error

/-! ## Reading bucket information -/

/-- C12, evaluation of the code: for a credential without `AllowOtherUserAccess` and a
bucket with canned ACL `authenticated-read`, `GetBucketInfoByCtx` and `GetBucketInfo`
return the bucket with a nil error to every caller, whatever the user id; in particular
the anonymous caller (empty user id) reads `alice`'s bucket. -/
theorem getBucketInfo_admits_anonymous :
    (∀ (bucketName : String) (bucket : Bucket) (credential : Credential),
      bucket.ACL.CannedAcl = "authenticated-read" →
      GetBucketInfoByCtx ⟨bucketName, some bucket⟩ credential = (some bucket, none)) ∧
    (∀ (σ : Type) (be : Backend σ) (bucketName : String) (bucket : Bucket)
      (credential : Credential) (w : World σ) (s1 : σ),
      bucket.ACL.CannedAcl = "authenticated-read" →
      be.GetBucket bucketName true w.st = (.ok bucket, s1) →
      GetBucketInfo be bucketName credential w =
        ((some bucket, none), ⟨s1, w.trace ++ [Effect.GetBucket bucketName true]⟩)) ∧
    (sampleBucket "b" "alice" "authenticated-read").OwnerId ≠ (sampleCredential "").UserId ∧
    (sampleCredential "").UserId = "" ∧ (sampleCredential "").AllowOtherUserAccess = false ∧
    GetBucketInfoByCtx ⟨"b", some (sampleBucket "b" "alice" "authenticated-read")⟩
        (sampleCredential "") =
      (some (sampleBucket "b" "alice" "authenticated-read"), none) ∧
    (GetBucketInfo sampleBackend "b" (sampleCredential "")
        ⟨[sampleBucket "b" "alice" "authenticated-read"], []⟩).1 =
      (some (sampleBucket "b" "alice" "authenticated-read"), none) := by
  refine ⟨?_, ?_, by decide, by decide, by decide, by decide, by decide⟩
  · intro bucketName bucket credential hacl
    unfold GetBucketInfoByCtx
    simp only [hacl]
    split
    · split
      · simp
      · rfl
    · rfl
  · intro σ be bucketName bucket credential w s1 hacl hget
    unfold GetBucketInfo
    simp only [call, hget, hacl]
    split
    · split
      · simp
      · rfl
    · rfl

/-- C12, instance: the general statement applied to the anonymous caller and
`alice`'s `authenticated-read` bucket. -/
theorem getBucketInfo_admits_anonymous_witness :
    GetBucketInfoByCtx ⟨"b", some (sampleBucket "b" "alice" "authenticated-read")⟩
        (sampleCredential "") =
      (some (sampleBucket "b" "alice" "authenticated-read"), none) ∧
    GetBucketInfo sampleBackend "b" (sampleCredential "")
        ⟨[sampleBucket "b" "alice" "authenticated-read"], []⟩ =
      ((some (sampleBucket "b" "alice" "authenticated-read"), none),
        ⟨[sampleBucket "b" "alice" "authenticated-read"], [Effect.GetBucket "b" true]⟩) :=
  ⟨getBucketInfo_admits_anonymous.1 "b" (sampleBucket "b" "alice" "authenticated-read")
      (sampleCredential "") rfl,
    getBucketInfo_admits_anonymous.2.1 (List Bucket) sampleBackend "b"
      (sampleBucket "b" "alice" "authenticated-read") (sampleCredential "")
      ⟨[sampleBucket "b" "alice" "authenticated-read"], []⟩
      [sampleBucket "b" "alice" "authenticated-read"] rfl rfl⟩

end Yig

namespace Yig

open Error

/-! ## Cache invalidation -/

theorem setBucketAcl_invalidates {σ : Type} (be : Backend σ) (bucketName : String) (policy : AccessControlPolicy) (acl : Acl) (credential : Credential)
    (w : World σ) :
    InvalidatesOnSuccess w (SetBucketAcl be bucketName policy acl credential w)
      CacheTable.BucketTable bucketName := by
  unfold InvalidatesOnSuccess SetBucketAcl
  simp only [call]
  repeat' split
  all_goals
    intro h
    first
      | exact absurd h (Option.some_ne_none _)
      | (simp only [call, Prod.mk.injEq] at *
         casesm* _ ∧ _
         subst_vars
         simp [cacheRemove])

theorem setBucketLifecycle_invalidates {σ : Type} (be : Backend σ) (bucketName : String) (lc : Lifecycle) (credential : Credential)
    (w : World σ) :
    InvalidatesOnSuccess w (SetBucketLifecycle be bucketName lc credential w)
      CacheTable.BucketTable bucketName := by
  unfold InvalidatesOnSuccess SetBucketLifecycle
  simp only [call]
  repeat' split
  all_goals
    intro h
    first
      | exact absurd h (Option.some_ne_none _)
      | (simp only [call, Prod.mk.injEq] at *
         casesm* _ ∧ _
         subst_vars
         simp [cacheRemove])

theorem delBucketLifecycle_invalidates {σ : Type} (be : Backend σ) (bucketName : String) (credential : Credential)
    (w : World σ) :
    InvalidatesOnSuccess w (DelBucketLifecycle be bucketName credential w)
      CacheTable.BucketTable bucketName := by
  unfold InvalidatesOnSuccess DelBucketLifecycle
  simp only [call]
  repeat' split
  all_goals
    intro h
    first
      | exact absurd h (Option.some_ne_none _)
      | (simp only [call, Prod.mk.injEq] at *
         casesm* _ ∧ _
         subst_vars
         simp [cacheRemove])

theorem setBucketCors_invalidates {σ : Type} (be : Backend σ) (bucketName : String) (cors : Cors) (credential : Credential)
    (w : World σ) :
    InvalidatesOnSuccess w (SetBucketCors be bucketName cors credential w)
      CacheTable.BucketTable bucketName := by
  unfold InvalidatesOnSuccess SetBucketCors
  simp only [call]
  repeat' split
  all_goals
    intro h
    first
      | exact absurd h (Option.some_ne_none _)
      | (simp only [call, Prod.mk.injEq] at *
         casesm* _ ∧ _
         subst_vars
         simp [cacheRemove])

theorem deleteBucketCors_invalidates {σ : Type} (be : Backend σ) (bucketName : String) (credential : Credential)
    (w : World σ) :
    InvalidatesOnSuccess w (DeleteBucketCors be bucketName credential w)
      CacheTable.BucketTable bucketName := by
  unfold InvalidatesOnSuccess DeleteBucketCors
  simp only [call]
  repeat' split
  all_goals
    intro h
    first
      | exact absurd h (Option.some_ne_none _)
      | (simp only [call, Prod.mk.injEq] at *
         casesm* _ ∧ _
         subst_vars
         simp [cacheRemove])

theorem setBucketVersioning_invalidates {σ : Type} (be : Backend σ) (bucketName : String) (versioning : Versioning) (credential : Credential)
    (w : World σ) :
    InvalidatesOnSuccess w (SetBucketVersioning be bucketName versioning credential w)
      CacheTable.BucketTable bucketName := by
  unfold InvalidatesOnSuccess SetBucketVersioning
  simp only [call]
  repeat' split
  all_goals
    intro h
    first
      | exact absurd h (Option.some_ne_none _)
      | (simp only [call, Prod.mk.injEq] at *
         casesm* _ ∧ _
         subst_vars
         simp [cacheRemove])

theorem setBucketPolicy_invalidates {σ : Type} (be : Backend σ) (credential : Credential) (bucketName : String) (bucketPolicy : Policy)
    (w : World σ) :
    InvalidatesOnSuccess w (SetBucketPolicy be credential bucketName bucketPolicy w)
      CacheTable.BucketTable bucketName := by
  unfold InvalidatesOnSuccess SetBucketPolicy
  simp only [call]
  repeat' split
  all_goals
    intro h
    first
      | exact absurd h (Option.some_ne_none _)
      | (simp only [call, Prod.mk.injEq] at *
         casesm* _ ∧ _
         subst_vars
         simp [cacheRemove])

theorem deleteBucketPolicy_invalidates {σ : Type} (be : Backend σ) (credential : Credential) (bucketName : String)
    (w : World σ) :
    InvalidatesOnSuccess w (DeleteBucketPolicy be credential bucketName w)
      CacheTable.BucketTable bucketName := by
  unfold InvalidatesOnSuccess DeleteBucketPolicy
  simp only [call]
  repeat' split
  all_goals
    intro h
    first
      | exact absurd h (Option.some_ne_none _)
      | (simp only [call, Prod.mk.injEq] at *
         casesm* _ ∧ _
         subst_vars
         simp [cacheRemove])

theorem setBucketWebsite_invalidates {σ : Type} (be : Backend σ) (bucket : Bucket) (config : WebsiteConfiguration)
    (w : World σ) :
    InvalidatesOnSuccess w (SetBucketWebsite be bucket config w)
      CacheTable.BucketTable bucket.Name := by
  unfold InvalidatesOnSuccess SetBucketWebsite
  simp only [call]
  repeat' split
  all_goals
    intro h
    first
      | exact absurd h (Option.some_ne_none _)
      | (simp only [call, Prod.mk.injEq] at *
         casesm* _ ∧ _
         subst_vars
         simp [cacheRemove])

theorem deleteBucketWebsite_invalidates {σ : Type} (be : Backend σ) (bucket : Bucket)
    (w : World σ) :
    InvalidatesOnSuccess w (DeleteBucketWebsite be bucket w)
      CacheTable.BucketTable bucket.Name := by
  unfold InvalidatesOnSuccess DeleteBucketWebsite
  simp only [call]
  repeat' split
  all_goals
    intro h
    first
      | exact absurd h (Option.some_ne_none _)
      | (simp only [call, Prod.mk.injEq] at *
         casesm* _ ∧ _
         subst_vars
         simp [cacheRemove])

theorem deleteBucket_invalidates_bucket {σ : Type} (be : Backend σ) (reqCtx : RequestContext) (credential : Credential)
    (w : World σ) :
    InvalidatesOnSuccess w (DeleteBucket be reqCtx credential w)
      CacheTable.BucketTable reqCtx.BucketName := by
  unfold InvalidatesOnSuccess DeleteBucket
  simp only [call]
  repeat' split
  all_goals
    intro h
    first
      | exact absurd h (Option.some_ne_none _)
      | (simp only [call, Prod.mk.injEq] at *
         casesm* _ ∧ _
         subst_vars
         simp [cacheRemove])

theorem deleteBucket_invalidates_user {σ : Type} (be : Backend σ) (reqCtx : RequestContext) (credential : Credential)
    (w : World σ) :
    InvalidatesOnSuccess w (DeleteBucket be reqCtx credential w)
      CacheTable.UserTable credential.UserId := by
  unfold InvalidatesOnSuccess DeleteBucket
  simp only [call]
  repeat' split
  all_goals
    intro h
    first
      | exact absurd h (Option.some_ne_none _)
      | (simp only [call, Prod.mk.injEq] at *
         casesm* _ ∧ _
         subst_vars
         simp [cacheRemove])

theorem makeBucket_invalidates_user {σ : Type} (be : Backend σ) (reqCtx : RequestContext) (acl : Acl) (credential : Credential)
    (w : World σ) :
    InvalidatesOnSuccess w (MakeBucket be reqCtx acl credential w)
      CacheTable.UserTable credential.UserId := by
  unfold InvalidatesOnSuccess MakeBucket
  simp only [call]
  repeat' split
  all_goals
    intro h
    first
      | exact absurd h (Option.some_ne_none _)
      | (simp only [call, Prod.mk.injEq] at *
         casesm* _ ∧ _
         subst_vars
         simp [cacheRemove])

theorem makeBucket_no_bucket_invalidation {σ : Type} (be : Backend σ) (reqCtx : RequestContext)
    (acl : Acl) (credential : Credential) (w : World σ) (ext : List Effect) (key : String)
    (htr : (MakeBucket be reqCtx acl credential w).2.trace = w.trace ++ ext) :
    Effect.CacheRemove CacheTable.BucketTable key ∉ ext := by
  unfold MakeBucket at htr
  simp only [call] at htr
  repeat' split at htr
  all_goals
    simp only [call, Prod.mk.injEq] at *
    try casesm* _ ∧ _
    subst_vars
    simp [cacheRemove] at htr
    subst htr
    simp

theorem deleteBucket_success_owner {σ : Type} (be : Backend σ) (reqCtx : RequestContext)
    (credential : Credential) (w : World σ)
    (h : (DeleteBucket be reqCtx credential w).1 = none) :
    ∃ bucket, reqCtx.BucketInfo = some bucket ∧ bucket.OwnerId = credential.UserId := by
  unfold DeleteBucket at h
  split at h
  · exact absurd h (Option.some_ne_none _)
  · rename_i bucket hb
    by_cases hown : bucket.OwnerId = credential.UserId
    · exact ⟨bucket, hb, hown⟩
    · rw [if_pos hown] at h
      exact absurd h (Option.some_ne_none _)

/-- C13 (amended): every attribute update (`SetBucketAcl`, `SetBucketLifecycle`,
`DelBucketLifecycle`, `SetBucketCors`, `DeleteBucketCors`, `SetBucketVersioning`,
`SetBucketPolicy`, `DeleteBucketPolicy`, `SetBucketWebsite`, `DeleteBucketWebsite`) and
`DeleteBucket`, when it returns nil, has called `Cache.Remove(BucketTable, name)` for the
name of the bucket; `DeleteBucket` (whose caller is then the owner) and `MakeBucket`,
when they return nil, have called `Cache.Remove(UserTable, id)` for the owner id;
`MakeBucket` never calls `Cache.Remove` on `BucketTable`. -/
theorem successful_mutations_invalidate {σ : Type} (be : Backend σ) (w : World σ)
    (bucketName : String) (credential : Credential) :
    (∀ (policy : AccessControlPolicy) (acl : Acl),
      InvalidatesOnSuccess w (SetBucketAcl be bucketName policy acl credential w)
        CacheTable.BucketTable bucketName) ∧
    (∀ lc : Lifecycle,
      InvalidatesOnSuccess w (SetBucketLifecycle be bucketName lc credential w)
        CacheTable.BucketTable bucketName) ∧
    InvalidatesOnSuccess w (DelBucketLifecycle be bucketName credential w)
      CacheTable.BucketTable bucketName ∧
    (∀ cors : Cors,
      InvalidatesOnSuccess w (SetBucketCors be bucketName cors credential w)
        CacheTable.BucketTable bucketName) ∧
    InvalidatesOnSuccess w (DeleteBucketCors be bucketName credential w)
      CacheTable.BucketTable bucketName ∧
    (∀ versioning : Versioning,
      InvalidatesOnSuccess w (SetBucketVersioning be bucketName versioning credential w)
        CacheTable.BucketTable bucketName) ∧
    (∀ bucketPolicy : Policy,
      InvalidatesOnSuccess w (SetBucketPolicy be credential bucketName bucketPolicy w)
        CacheTable.BucketTable bucketName) ∧
    InvalidatesOnSuccess w (DeleteBucketPolicy be credential bucketName w)
      CacheTable.BucketTable bucketName ∧
    (∀ (bucket : Bucket) (config : WebsiteConfiguration),
      InvalidatesOnSuccess w (SetBucketWebsite be bucket config w)
        CacheTable.BucketTable bucket.Name) ∧
    (∀ bucket : Bucket,
      InvalidatesOnSuccess w (DeleteBucketWebsite be bucket w)
        CacheTable.BucketTable bucket.Name) ∧
    (∀ reqCtx : RequestContext,
      InvalidatesOnSuccess w (DeleteBucket be reqCtx credential w)
          CacheTable.BucketTable reqCtx.BucketName ∧
        InvalidatesOnSuccess w (DeleteBucket be reqCtx credential w)
          CacheTable.UserTable credential.UserId ∧
        ((DeleteBucket be reqCtx credential w).1 = none →
          ∃ bucket, reqCtx.BucketInfo = some bucket ∧ bucket.OwnerId = credential.UserId)) ∧
    (∀ (reqCtx : RequestContext) (acl : Acl),
      InvalidatesOnSuccess w (MakeBucket be reqCtx acl credential w)
          CacheTable.UserTable credential.UserId ∧
        (∀ (ext : List Effect) (key : String),
          (MakeBucket be reqCtx acl credential w).2.trace = w.trace ++ ext →
          Effect.CacheRemove CacheTable.BucketTable key ∉ ext)) :=
  ⟨fun policy acl => setBucketAcl_invalidates be bucketName policy acl credential w,
    fun lc => setBucketLifecycle_invalidates be bucketName lc credential w,
    delBucketLifecycle_invalidates be bucketName credential w,
    fun cors => setBucketCors_invalidates be bucketName cors credential w,
    deleteBucketCors_invalidates be bucketName credential w,
    fun v => setBucketVersioning_invalidates be bucketName v credential w,
    fun p => setBucketPolicy_invalidates be credential bucketName p w,
    deleteBucketPolicy_invalidates be credential bucketName w,
    fun bucket config => setBucketWebsite_invalidates be bucket config w,
    fun bucket => deleteBucketWebsite_invalidates be bucket w,
    fun reqCtx => ⟨deleteBucket_invalidates_bucket be reqCtx credential w,
      deleteBucket_invalidates_user be reqCtx credential w,
      deleteBucket_success_owner be reqCtx credential w⟩,
    fun reqCtx acl => ⟨makeBucket_invalidates_user be reqCtx acl credential w,
      fun ext key => makeBucket_no_bucket_invalidation be reqCtx acl credential w ext key⟩⟩

/-- C13, instance on the in-memory backend: `alice` sets the CORS rules of her bucket
`b` and deletes it; both runs succeed and drop the cache entries. -/
theorem successful_mutations_invalidate_witness :
    (∃ ext, (SetBucketCors sampleBackend "b" ⟨["rule"]⟩ (sampleCredential "alice")
        aliceWorld).2.trace = aliceWorld.trace ++ ext ∧
      Effect.CacheRemove CacheTable.BucketTable "b" ∈ ext) ∧
    (∃ ext, (DeleteBucket sampleBackend ⟨"b", some (sampleBucket "b" "alice" "private")⟩
        (sampleCredential "alice") aliceWorld).2.trace = aliceWorld.trace ++ ext ∧
      Effect.CacheRemove CacheTable.UserTable "alice" ∈ ext) :=
  ⟨(successful_mutations_invalidate sampleBackend aliceWorld "b"
      (sampleCredential "alice")).2.2.2.1 ⟨["rule"]⟩ (by decide),
    ((successful_mutations_invalidate sampleBackend aliceWorld "b"
      (sampleCredential "alice")).2.2.2.2.2.2.2.2.2.2.1
      ⟨"b", some (sampleBucket "b" "alice" "private")⟩).2.1 (by decide)⟩

/-- C13, the claim as stated fails for `MakeBucket`: a successful creation of bucket
`new` by `alice` drops her cached bucket list and makes no `Cache.Remove` call on
`BucketTable`. -/
theorem makeBucket_keeps_bucket_cache_counterexample :
    (MakeBucket sampleBackend ⟨"new", none⟩ ⟨"private"⟩ (sampleCredential "alice")
        aliceWorld).1 = none ∧
    (MakeBucket sampleBackend ⟨"new", none⟩ ⟨"private"⟩ (sampleCredential "alice")
        aliceWorld).2.trace =
      [Effect.GetUserBuckets "alice" false,
        Effect.PutNewBucket { sampleBucket "new" "alice" "private" with CreateTime := 0 },
        Effect.CacheRemove CacheTable.UserTable "alice"] ∧
    Effect.CacheRemove CacheTable.BucketTable "new" ∉
      (MakeBucket sampleBackend ⟨"new", none⟩ ⟨"private"⟩ (sampleCredential "alice")
        aliceWorld).2.trace := by
  decide

end Yig

namespace Yig

open Error

/-! ## Errors while reading parts -/

theorem getParts_fold_err (rows : List PartRow) :
    ∀ acc : PartMap × Option Error,
      (rows.foldl (fun acc r => (mapSet acc.1 r.scanned.PartNumber r.scanned, r.scanErr)) acc).2 =
        match rows.getLast? with
        | none => acc.2
        | some r => r.scanErr := by
  induction rows with
  | nil => intro acc; rfl
  | cons r rest ih =>
    intro acc
    rw [List.foldl_cons, ih]
    cases rest with
    | nil => rfl
    | cons r2 rest2 =>
      rw [List.getLast?_cons_cons]
      cases h : (r2 :: rest2).getLast? with
      | none => simp at h
      | some x => rfl

/-- C14, evaluation of the code: when the part query itself succeeds, the error
`getParts` returns is the scan error of the last row only. For the two part rows of
`lossyClient`, where the scan of the first row fails and that of the second succeeds,
`getParts` returns a nil error and `GetObject` returns the object with a nil error;
only with the failing row last is the scan error returned. -/
theorem getParts_keeps_only_last_scan_error :
    (∀ (cli : SqlClient) (bucketName objectName : String) (version : Nat),
      cli.queryFailure = none →
      (getParts bucketName objectName version cli).2 =
        match (cli.objectpart.filter fun r =>
            r.bucketname = bucketName ∧ r.objectname = objectName ∧
              r.version = version).getLast? with
        | none => none
        | some r => r.scanErr) ∧
    getParts "b" "k" (versionKey 5) lossyClient =
      ([(1, samplePart 1 0), (2, samplePart 2 10)], none) ∧
    (∃ o : Object, GetObject sampleDeps lossyClient "b" "k" "" = some (o, none) ∧
      o.Parts = some [(1, samplePart 1 0), (2, samplePart 2 10)] ∧
      o.PartsIndex = some ⟨[0, 10]⟩) ∧
    (getParts "b" "k" (versionKey 5) lossyClientLast).2 =
      some (Other "converting NULL to string is unsupported") ∧
    (∃ o : Object, GetObject sampleDeps lossyClientLast "b" "k" "" =
      some (o, some (Other "converting NULL to string is unsupported"))) := by
  refine ⟨?_, by decide, ⟨_, rfl, by decide, by decide⟩, by decide, ⟨_, rfl⟩⟩
  intro cli bucketName objectName version hq
  unfold getParts
  rw [hq]
  simp only []
  rw [getParts_fold_err]

/-- C14, instance: the general statement applied to `lossyClient`, whose last part row
scans without error. -/
theorem getParts_keeps_only_last_scan_error_witness :
    (getParts "b" "k" (versionKey 5) lossyClient).2 = none :=
  (getParts_keeps_only_last_scan_error.1 lossyClient "b" "k" (versionKey 5) rfl).trans
    (by decide)

end Yig

namespace Yig

open Error

/-! ## Bounds of the part index build -/

theorem buildIndexLoop_in_bounds (l : List (Int × Part)) :
    ∀ idx out : List Int, buildIndexLoop l idx = some out →
      ∀ p ∈ l, 1 ≤ p.1 ∧ p.1 ≤ idx.length := by
  induction l with
  | nil => intro idx out _ p hp; simp at hp
  | cons hd rest ih =>
    intro idx out h p hp
    obtain ⟨k, v⟩ := hd
    simp only [buildIndexLoop, sliceStore] at h
    by_cases hb : 0 ≤ k - 1 ∧ k - 1 < (idx.length : Int)
    · rw [if_pos hb] at h
      simp only [] at h
      rcases List.mem_cons.mp hp with rfl | hp
      · simp only []
        omega
      · have := ih (idx.set (k - 1).toNat v.Offset) out h p hp
        rw [List.length_set] at this
        exact this
    · rw [if_neg hb] at h
      simp at h

theorem keys_fill_range (keys : List Int) (hnodup : keys.Nodup)
    (hrange : ∀ k ∈ keys, 1 ≤ k ∧ k ≤ keys.length) :
    ∀ k : Int, 1 ≤ k → k ≤ keys.length → k ∈ keys := by
  have hsub : keys.toFinset ⊆ Finset.Icc (1 : Int) keys.length := by
    intro k hk
    rw [List.mem_toFinset] at hk
    rw [Finset.mem_Icc]
    exact hrange k hk
  have hcard : (Finset.Icc (1 : Int) keys.length).card ≤ keys.toFinset.card := by
    rw [List.toFinset_card_of_nodup hnodup, Int.card_Icc]
    omega
  have heq := Finset.eq_of_subset_of_card_le hsub hcard
  intro k h1 h2
  have : k ∈ Finset.Icc (1 : Int) keys.length := Finset.mem_Icc.mpr ⟨h1, h2⟩
  rw [← heq] at this
  exact List.mem_toFinset.mp this

/-- C15: for a non-empty part map with `N` entries (distinct part numbers, as in every
map `getParts` builds), the index build of `GetObject` finishes without an
out-of-range store if and only if the part numbers are exactly `1..N`; a part number
below 1 or above `N`, or a number of `1..N` that is missing, makes the build panic. -/
theorem partsIndex_in_bounds_iff :
    (∀ parts : PartMap, parts ≠ [] → (parts.map Prod.fst).Nodup →
      ((buildPartsIndex parts ≠ none ↔
          ∀ k : Int, k ∈ parts.map Prod.fst ↔ 1 ≤ k ∧ k ≤ parts.length) ∧
        ((∃ k ∈ parts.map Prod.fst, k < 1 ∨ (parts.length : Int) < k) →
          buildPartsIndex parts = none) ∧
        ((∃ k : Int, 1 ≤ k ∧ k ≤ parts.length ∧ k ∉ parts.map Prod.fst) →
          buildPartsIndex parts = none))) ∧
    (∀ (bucketName objectName : String) (version : Nat) (cli : SqlClient),
      ((getParts bucketName objectName version cli).1.map Prod.fst).Nodup) := by
  refine ⟨?_, getParts_keys_nodup⟩
  intro parts hne hnodup
  have hlen : parts.length ≠ 0 := by
    intro h
    exact hne (List.length_eq_zero.mp h)
  have hiff : buildPartsIndex parts ≠ none ↔
      ∀ k : Int, k ∈ parts.map Prod.fst ↔ 1 ≤ k ∧ k ≤ parts.length := by
    constructor
    · intro hb
      unfold buildPartsIndex at hb
      rw [if_pos hlen] at hb
      cases hloop : buildIndexLoop parts (List.replicate parts.length 0) with
      | none => rw [hloop] at hb; exact absurd rfl hb
      | some out =>
        have hin := buildIndexLoop_in_bounds parts _ out hloop
        rw [List.length_replicate] at hin
        have hrange : ∀ k ∈ parts.map Prod.fst, 1 ≤ k ∧ k ≤ (parts.map Prod.fst).length := by
          intro k hk
          obtain ⟨p, hp, rfl⟩ := List.mem_map.mp hk
          rw [List.length_map]
          exact hin p hp
        intro k
        constructor
        · intro hk
          have := hrange k hk
          rw [List.length_map] at this
          exact this
        · intro hk
          have := keys_fill_range (parts.map Prod.fst) hnodup hrange k hk.1
            (by rw [List.length_map]; exact hk.2)
          exact this
    · intro hkeys
      have hrange : ∀ p ∈ parts,
          1 ≤ p.1 ∧ p.1 ≤ (List.replicate parts.length (0 : Int)).length := by
        intro p hp
        rw [List.length_replicate]
        exact (hkeys p.1).mp (List.mem_map_of_mem Prod.fst hp)
      obtain ⟨out, hout, _⟩ := buildIndexLoop_spec parts _ hrange hnodup
      unfold buildPartsIndex
      rw [if_pos hlen, hout]
      simp
  refine ⟨hiff, ?_, ?_⟩
  · rintro ⟨k, hk, hout⟩
    by_contra hb
    have := ((hiff.mp hb) k).mp hk
    omega
  · rintro ⟨k, h1, h2, hk⟩
    by_contra hb
    exact hk (((hiff.mp hb) k).mpr ⟨h1, h2⟩)

/-- C15, instances: the dense map `sampleParts` builds its index; a map with part
numbers 1 and 3 (a gap at 2, and 3 above `N = 2`) and a map with part number 0 panic. -/
theorem partsIndex_in_bounds_iff_witness :
    buildPartsIndex sampleParts ≠ none ∧
    buildPartsIndex [(1, samplePart 1 0), (3, samplePart 3 25)] = none ∧
    buildPartsIndex [(0, samplePart 0 0)] = none :=
  ⟨((partsIndex_in_bounds_iff.1 sampleParts (by decide) (by decide)).1).mpr
      (by intro k; simp [sampleParts]; omega),
    (partsIndex_in_bounds_iff.1 [(1, samplePart 1 0), (3, samplePart 3 25)] (by decide)
      (by decide)).2.1 ⟨3, by decide, by decide⟩,
    (partsIndex_in_bounds_iff.1 [(0, samplePart 0 0)] (by decide) (by decide)).2.1
      ⟨0, by decide, by decide⟩⟩

end Yig
